import Mathlib

/-!
Verification of the predictive-stop / calibration / write-batching core of a
Crestron Home shade integration.

The Python modules `calibration.py`, `predictive_stop.py`, `learning.py` and
`write.py` are shallowly embedded below.  Python floats are modelled as exact
rationals (`ℚ`) wherever the code performs only field operations; the one
genuinely irrational operation (`** 0.5` in the learning module) is modelled
over `ℝ` with `Real.sqrt`.  Python's built-in `round` (round-half-to-even,
returning an integer) is modelled by `pyRound`.
-/

namespace CrestronHome

/-- Python's `round(x)`: round half to even, returning an integer.  Generic
over any `FloorRing` field so that it can be used both at `ℚ` (calibration,
computable) and at `ℝ` (learning). -/
def pyRound {α : Type*} [LinearOrderedField α] [FloorRing α] (x : α) : ℤ :=
  if x - (⌊x⌋ : α) < 1 / 2 then ⌊x⌋
  else if 1 / 2 < x - (⌊x⌋ : α) then ⌊x⌋ + 1
  else if ⌊x⌋ % 2 = 0 then ⌊x⌋ else ⌊x⌋ + 1

theorem pyRound_le {α : Type*} [LinearOrderedField α] [FloorRing α] (x : α) :
    (pyRound x : α) ≤ x + 1 / 2 := by
  unfold pyRound
  have h1 : (⌊x⌋ : α) ≤ x := Int.floor_le x
  split
  · linarith
  · split
    · push_cast; linarith
    · split
      · linarith
      · push_cast
        rename_i h2 h3 _
        have : x - (⌊x⌋ : α) = 1 / 2 := le_antisymm (not_lt.mp h3) (not_lt.mp h2)
        linarith

theorem le_pyRound {α : Type*} [LinearOrderedField α] [FloorRing α] (x : α) :
    x - 1 / 2 ≤ (pyRound x : α) := by
  unfold pyRound
  have h2 : x < (⌊x⌋ : α) + 1 := Int.lt_floor_add_one x
  split
  · rename_i h; linarith
  · split
    · push_cast; linarith
    · split
      · rename_i h2' h3 _
        have : x - (⌊x⌋ : α) = 1 / 2 := le_antisymm (not_lt.mp h3) (not_lt.mp h2')
        linarith
      · push_cast
        rename_i h2' h3 _
        have : x - (⌊x⌋ : α) = 1 / 2 := le_antisymm (not_lt.mp h3) (not_lt.mp h2')
        linarith

theorem pyRound_intCast {α : Type*} [LinearOrderedField α] [FloorRing α] (n : ℤ) :
    pyRound (n : α) = n := by
  unfold pyRound
  rw [Int.floor_intCast]
  simp

theorem pyRound_ge_floor {α : Type*} [LinearOrderedField α] [FloorRing α] (x : α) :
    ⌊x⌋ ≤ pyRound x := by
  unfold pyRound
  split
  · exact le_rfl
  · split
    · omega
    · split
      · exact le_rfl
      · omega

theorem pyRound_le_floor_add_one {α : Type*} [LinearOrderedField α] [FloorRing α] (x : α) :
    pyRound x ≤ ⌊x⌋ + 1 := by
  unfold pyRound
  split
  · omega
  · split
    · omega
    · split
      · omega
      · omega

theorem pyRound_mono {α : Type*} [LinearOrderedField α] [FloorRing α]
    {x y : α} (hxy : x ≤ y) : pyRound x ≤ pyRound y := by
  rcases lt_or_ge ⌊x⌋ ⌊y⌋ with hf | hf
  · calc pyRound x ≤ ⌊x⌋ + 1 := pyRound_le_floor_add_one x
      _ ≤ ⌊y⌋ := by omega
      _ ≤ pyRound y := pyRound_ge_floor y
  · have hf' : ⌊x⌋ = ⌊y⌋ := le_antisymm (Int.floor_le_floor hxy) hf
    have hfr : x - (⌊x⌋ : α) ≤ y - (⌊y⌋ : α) := by rw [hf']; linarith
    rcases lt_trichotomy (x - (⌊x⌋ : α)) (1 / 2) with hx | hx | hx
    · have hxv : pyRound x = ⌊x⌋ := by unfold pyRound; rw [if_pos hx]
      rw [hxv, hf']
      exact pyRound_ge_floor y
    · have hxv : pyRound x ≤ ⌊x⌋ + 1 := pyRound_le_floor_add_one x
      rcases lt_or_eq_of_le hfr with hy | hy
      · rw [hx] at hy
        have hyv : pyRound y = ⌊y⌋ + 1 := by
          unfold pyRound
          rw [if_neg (not_lt.mpr (le_of_lt hy)), if_pos hy]
        rw [hyv, ← hf']
        exact hxv
      · have h1 : x - (⌊y⌋ : α) = y - (⌊y⌋ : α) := by rw [← hf', hy, hf']
        have : pyRound x = pyRound y := by
          unfold pyRound
          rw [hf', h1]
        rw [this]
    · have hxv : pyRound x = ⌊x⌋ + 1 := by
        unfold pyRound
        rw [if_neg (not_lt.mpr (le_of_lt hx)), if_pos hx]
      have hy : 1 / 2 < y - (⌊y⌋ : α) := lt_of_lt_of_le hx hfr
      have hyv : pyRound y = ⌊y⌋ + 1 := by
        unfold pyRound
        rw [if_neg (not_lt.mpr (le_of_lt hy)), if_pos hy]
      rw [hxv, hyv, hf']

/-- Python `round(x, 6)`, as used by `_recompute_confidence`. -/
def round6 {α : Type*} [LinearOrderedField α] [FloorRing α] (x : α) : α :=
  (pyRound (x * 1000000) : α) / 1000000

theorem round6_mono {α : Type*} [LinearOrderedField α] [FloorRing α]
    {x y : α} (hxy : x ≤ y) : round6 x ≤ round6 y := by
  unfold round6
  have := pyRound_mono (α := α) (x := x * 1000000) (y := y * 1000000) (by nlinarith)
  have h' : ((pyRound (x * 1000000) : ℤ) : α) ≤ ((pyRound (y * 1000000) : ℤ) : α) := by
    exact_mod_cast this
  linarith

/-- `_clamp(value, lower, upper)` from `learning.py`. -/
def pyClamp {α : Type*} [LinearOrder α] (value lower upper : α) : α :=
  if value < lower then lower
  else if upper < value then upper
  else value

theorem pyClamp_le {α : Type*} [LinearOrder α] (value lower upper : α)
    (h : lower ≤ upper) : pyClamp value lower upper ≤ upper := by
  unfold pyClamp
  split
  · exact h
  · split
    · exact le_rfl
    · next h2 => exact not_lt.mp h2

theorem le_pyClamp {α : Type*} [LinearOrder α] (value lower upper : α)
    (h : lower ≤ upper) : lower ≤ pyClamp value lower upper := by
  unfold pyClamp
  split
  · exact le_rfl
  · split
    · exact h
    · next h1 _ => exact not_lt.mp h1

theorem pyClamp_mono {α : Type*} [LinearOrder α] {x y : α} (lower upper : α)
    (hlu : lower ≤ upper) (hxy : x ≤ y) :
    pyClamp x lower upper ≤ pyClamp y lower upper := by
  by_cases h1 : x < lower
  · rw [show pyClamp x lower upper = lower by unfold pyClamp; rw [if_pos h1]]
    exact le_pyClamp y lower upper hlu
  · by_cases h2 : upper < x
    · have h3 : ¬ y < lower := fun hy => h1 (lt_of_le_of_lt hxy hy)
      have h4 : upper < y := lt_of_lt_of_le h2 hxy
      rw [show pyClamp x lower upper = upper by
        unfold pyClamp; rw [if_neg h1, if_pos h2]]
      rw [show pyClamp y lower upper = upper by
        unfold pyClamp; rw [if_neg h3, if_pos h4]]
    · have h3 : ¬ y < lower := fun hy => h1 (lt_of_le_of_lt hxy hy)
      rw [show pyClamp x lower upper = x by
        unfold pyClamp; rw [if_neg h1, if_neg h2]]
      by_cases h4 : upper < y
      · rw [show pyClamp y lower upper = upper by
          unfold pyClamp; rw [if_neg h3, if_pos h4]]
        exact not_lt.mp h2
      · rw [show pyClamp y lower upper = y by
          unfold pyClamp; rw [if_neg h3, if_neg h4]]
        exact hxy

/-- Stable insertion into a sorted list: helper for `pySorted`. -/
def sortInsert (x : ℚ) : List ℚ → List ℚ
  | [] => [x]
  | y :: ys => if x ≤ y then x :: y :: ys else y :: sortInsert x ys

/-- Python `sorted` on a list of floats.  Modelled by insertion sort, which
agrees with any correct sort on a totally ordered type. -/
def pySorted : List ℚ → List ℚ
  | [] => []
  | x :: xs => sortInsert x (pySorted xs)

/-- `statistics.median` from the Python standard library: middle element of
the sorted data for odd length, mean of the two middle elements for even
length.  (The empty case, which raises in Python, is unreachable in
`plan_targets` and mapped to `0`.) -/
def median (l : List ℚ) : ℚ :=
  let s := pySorted l
  let n := s.length
  if n % 2 = 1 then s.getD (n / 2) 0
  else (s.getD (n / 2 - 1) 0 + s.getD (n / 2) 0) / 2

/-! ## Calibration engine (`calibration.py`) -/

/-- Modelled from the spec: `CAL_ANCHOR_PC_MIN` is imported by
`calibration.py` from `const.py` but absent from the `const.py` in `src/`;
§3 of the spec fixes the percent domain to `[0, 100]`. -/
def CAL_ANCHOR_PC_MIN : ℤ := 0

/-- Modelled from the spec: `CAL_ANCHOR_PC_MAX` is absent from the `const.py`
in `src/`; §3 of the spec fixes the percent domain to `[0, 100]`. -/
def CAL_ANCHOR_PC_MAX : ℤ := 100

/-- Modelled from the spec: `CAL_ANCHOR_RAW_MIN` is absent from the `const.py`
in `src/`; §3 of the spec fixes the raw domain to `[0, RAW_MAX]`. -/
def CAL_ANCHOR_RAW_MIN : ℤ := 0

/-- Modelled from the spec: `CAL_ANCHOR_RAW_MAX` is absent from the `const.py`
in `src/`.  §3 of the spec fixes the raw domain to `[0, RAW_MAX]`;
`SHADE_POSITION_MAX = 65535` in `const.py` and the repository tests
(`pct_to_raw(23, DEFAULT_ANCHORS, False) == 15073`) pin `RAW_MAX = 65535`. -/
def CAL_ANCHOR_RAW_MAX : ℤ := 65535

/-- An anchor `(pc, raw)`.  `_coerce_int` normalises both entries to `int`. -/
abbrev Anchor := ℤ × ℤ

/-- The default anchor table `[(0, 0), (100, 65535)]` (Modelled from the
spec: `CAL_DEFAULT_ANCHORS` is absent from the `const.py` in `src/`; the
default two-point table is pinned by the repository tests' default linear
mapping `pct_to_raw(23) == 15073 = round(23 * 65535 / 100)`). -/
def DEFAULT_ANCHORS : List Anchor := [(0, 0), (100, 65535)]

/-- The interior segment scan of `pct_to_raw`: the Python `for` loop over
consecutive anchor pairs, with the pre-loop default `anchors[-1][1]`
(`dflt`) used when no segment breaks the loop. -/
def pctScan (pctValue : ℤ) : List (Anchor × Anchor) → ℚ → ℚ
  | [], dflt => dflt
  | (s, e) :: rest, dflt =>
    if pctValue ≤ e.1 then
      if e.1 - s.1 ≤ 0 then (e.2 : ℚ)
      else (s.2 : ℚ) + ((e.2 : ℚ) - (s.2 : ℚ)) * (((pctValue : ℚ) - (s.1 : ℚ)) / ((e.1 : ℚ) - (s.1 : ℚ)))
    else pctScan pctValue rest dflt

/-- `pct_to_raw(pct, anchors, invert_axis)` from `calibration.py`.
The Python code indexes `anchors[0]` / `anchors[-1]`, so it requires a
non-empty anchor sequence; the `headD`/`getLastD` defaults are never
relevant under that hypothesis. -/
def pct_to_raw (pct : ℤ) (anchors : List Anchor) (invert_axis : Bool) : ℤ :=
  let pctValue := max CAL_ANCHOR_PC_MIN (min CAL_ANCHOR_PC_MAX pct)
  let pctValue := if invert_axis then CAL_ANCHOR_PC_MAX - pctValue else pctValue
  let raw : ℚ :=
    if pctValue ≤ (anchors.headD (0, 0)).1 then ((anchors.headD (0, 0)).2 : ℚ)
    else if (anchors.getLastD (0, 0)).1 ≤ pctValue then ((anchors.getLastD (0, 0)).2 : ℚ)
    else pctScan pctValue (anchors.zip anchors.tail) ((anchors.getLastD (0, 0)).2 : ℚ)
  let rawInt := pyRound raw
  if rawInt < CAL_ANCHOR_RAW_MIN then CAL_ANCHOR_RAW_MIN
  else if CAL_ANCHOR_RAW_MAX < rawInt then CAL_ANCHOR_RAW_MAX
  else rawInt

/-- The segment scan of `raw_to_pct`: the Python `for` loop over consecutive
anchor pairs (`continue` while `raw_value > raw_end`, flat-segment and
below-start short circuits, otherwise linear interpolation), with the
pre-loop default `anchors[-1][0]` (`dflt`). -/
def rawScan (rawValue : ℤ) : List (Anchor × Anchor) → ℚ → ℚ
  | [], dflt => dflt
  | (s, e) :: rest, dflt =>
    if e.2 < rawValue then rawScan rawValue rest dflt
    else if e.2 = s.2 then (if rawValue < s.2 then (s.1 : ℚ) else (e.1 : ℚ))
    else if rawValue ≤ s.2 then (s.1 : ℚ)
    else (s.1 : ℚ) + ((e.1 : ℚ) - (s.1 : ℚ)) * (((rawValue : ℚ) - (s.2 : ℚ)) / ((e.2 : ℚ) - (s.2 : ℚ)))

/-- `raw_to_pct(raw, anchors, invert_axis)` from `calibration.py`
(`None` propagates; otherwise the result is clamped into `[0, 100]`). -/
def raw_to_pct (raw : Option ℤ) (anchors : List Anchor) (invert_axis : Bool) : Option ℤ :=
  match raw with
  | none => none
  | some r =>
    let rawValue := max CAL_ANCHOR_RAW_MIN (min CAL_ANCHOR_RAW_MAX r)
    let pct : ℚ := rawScan rawValue (anchors.zip anchors.tail) (((anchors.getLastD (0, 0)).1 : ℚ))
    let pctInt := pyRound pct
    let pctInt := if invert_axis then CAL_ANCHOR_PC_MAX - pctInt else pctInt
    some (if pctInt < CAL_ANCHOR_PC_MIN then CAL_ANCHOR_PC_MIN
      else if CAL_ANCHOR_PC_MAX < pctInt then CAL_ANCHOR_PC_MAX
      else pctInt)

/-- The conditions enforced by `validate_anchors` on an already
integer-coerced anchor list: at least two anchors, endpoints at 0 / 100,
every anchor inside the percent and raw ranges, percents strictly
increasing, raws monotonically non-decreasing. -/
def validAnchors (anchors : List Anchor) : Bool :=
  decide (2 ≤ anchors.length) &&
  decide ((anchors.headD (0, 0)).1 = CAL_ANCHOR_PC_MIN) &&
  decide ((anchors.getLastD (0, 0)).1 = CAL_ANCHOR_PC_MAX) &&
  anchors.all (fun a => decide (CAL_ANCHOR_PC_MIN ≤ a.1) && decide (a.1 ≤ CAL_ANCHOR_PC_MAX) &&
    decide (CAL_ANCHOR_RAW_MIN ≤ a.2) && decide (a.2 ≤ CAL_ANCHOR_RAW_MAX)) &&
  (anchors.zip anchors.tail).all (fun p => decide (p.1.1 < p.2.1) && decide (p.1.2 ≤ p.2.2))

/-- Non-degeneracy used in the round-trip theorem: every consecutive anchor
pair gains at least as much raw travel as percent travel. -/
def nondegAnchors (anchors : List Anchor) : Bool :=
  (anchors.zip anchors.tail).all (fun p => decide (p.2.1 - p.1.1 ≤ p.2.2 - p.1.2))

/-! ## Predictive stop planner (`predictive_stop.py`) -/

/-- `ShadeStopInput`: information required to plan a stop for one shade. -/
structure ShadeStopInput where
  shade_id : String
  position : ℚ
  velocity : ℚ
  direction : ℤ
  baseline : Option ℚ
  tau_resp : ℚ
  tau_acc : ℚ
  tau_dec : ℚ
  v0 : ℚ
  v1 : ℚ
  confidence : ℚ
  min_position : ℚ := 0
  max_position : ℚ := 1
  stale_seconds : ℚ := 0
  safe_when_uncertain : Bool := true
deriving Repr

/-- `ShadeStopTarget`: planned absolute position in the percent domain. -/
structure ShadeStopTarget where
  shade_id : String
  position : ℚ
  clamped : Bool
  distance : ℚ
deriving Repr, DecidableEq

/-- `PlanResult` returned from the planner. -/
structure PlanResult where
  targets : List ShadeStopTarget
  flush : Bool
deriving Repr

/-- `ShadeModel.steady_speed`. -/
def steady_speed (v0 v1 position : ℚ) : ℚ :=
  max (1 / 100) (v0 + v1 * position)

/-- `ShadeModel.estimate_velocity`. -/
def estimate_velocity (position measured_velocity v0 v1 confidence stale_seconds : ℚ) : ℚ :=
  let model_velocity := steady_speed v0 v1 position
  let blend := confidence * max 0 (1 - stale_seconds / (5 / 2))
  blend * measured_velocity + (1 - blend) * model_velocity

/-- `ShadeModel.forward_distance` (with an explicit `tau_dec`, as called by
`plan_targets`). -/
def forward_distance (velocity tau_resp tau_dec : ℚ) : ℚ :=
  let v := max 0 velocity
  v * max 0 tau_resp + (1 / 2) * v * max 0 tau_dec

/-- `PredictiveStopPlanner._safety_scale`. -/
def safety_scale (min_conf_scale confidence : ℚ) : ℚ :=
  max min_conf_scale (min 1 confidence)

/-- The per-shade body of `plan_targets`' first loop: predicted velocity and
confidence-scaled forward coast distance (forced to 0 by the
`safe_when_uncertain` hard fallback when confidence < 0.05). -/
def plannedForward (min_conf_scale : ℚ) (item : ShadeStopInput) : ℚ × ℚ :=
  let predicted := estimate_velocity item.position |item.velocity| item.v0 item.v1
    item.confidence item.stale_seconds
  let predicted := if predicted ≤ 0 then |item.velocity| else predicted
  let forward := forward_distance predicted item.tau_resp item.tau_dec
  let forward := forward * safety_scale min_conf_scale item.confidence
  let forward := if item.safe_when_uncertain ∧ item.confidence < 1 / 20 then 0 else forward
  (predicted, forward)

/-- The per-shade body of `plan_targets`' second loop: group blending,
clamping and the final non-backtracking guard. -/
def plannedTarget (group_delta group_coast : ℚ) (item : ShadeStopInput)
    (forward : ℚ) : ShadeStopTarget :=
  let dir : ℤ := if 0 < item.direction then 1 else -1
  let proposed := item.position + (dir : ℚ) * forward
  let proposed :=
    match item.baseline with
    | none => proposed
    | some b =>
      let proposedGroup := b + group_delta + (dir : ℚ) * group_coast
      if 0 < dir then max proposed proposedGroup else min proposed proposedGroup
  let proposed := max item.min_position (min item.max_position proposed)
  let proposed :=
    if 0 < dir ∧ proposed < item.position then item.position
    else if dir < 0 ∧ item.position < proposed then item.position
    else proposed
  { shade_id := item.shade_id
    position := proposed
    clamped := decide (proposed = item.min_position ∨ proposed = item.max_position)
    distance := forward }

/-- `PredictiveStopPlanner.plan_targets`. -/
def plan_targets (min_conf_scale : ℚ) (inputs : List ShadeStopInput) : PlanResult :=
  let active := inputs.filter (fun i => decide (i.direction ≠ 0))
  if active.isEmpty then
    { targets := inputs.map (fun i => ⟨i.shade_id, i.position, false, 0⟩), flush := false }
  else
    let adjusted := active.map (fun item => (item, plannedForward min_conf_scale item))
    let distances := adjusted.map (fun p => p.2.2)
    let baseline_deltas := active.filterMap (fun i => i.baseline.map (fun b => i.position - b))
    let group_delta := if baseline_deltas.isEmpty then 0 else median baseline_deltas
    let group_coast := if distances.isEmpty then 0 else median distances
    let targets := adjusted.map (fun p => plannedTarget group_delta group_coast p.1 p.2.2)
    let remaining := ((inputs.filter (fun i => decide (i.direction = 0))).map
        (fun i => i.shade_id)).filter (fun s => !(targets.map (fun t => t.shade_id)).contains s)
    let extra := (inputs.filter (fun i => remaining.contains i.shade_id)).map
      (fun i => (⟨i.shade_id, i.position, false, 0⟩ : ShadeStopTarget))
    { targets := targets ++ extra, flush := true }

/-! ## Predictive runtime (`PredictiveRuntime.plan_stop`) -/

/-- A polled motion sample `(time, position)`. -/
structure MotionSample where
  time : ℚ
  position : ℚ
deriving Repr

/-- The learning-state fields read by `plan_stop`
(`state.learning.confidence`, `.tau_resp`, `.rls.theta0`, `.rls.theta1`). -/
structure LearnSnapshot where
  confidence : ℚ
  tau_resp : ℚ
  theta0 : ℚ
  theta1 : ℚ
deriving Repr

/-- The fields of `ShadeRuntimeState` read by `plan_stop`. -/
structure RuntimeShadeState where
  learning : LearnSnapshot
  last_sample : Option MotionSample
  last_velocity : ℚ
  last_direction : ℤ
  baseline : Option ℚ
deriving Repr

/-- The `PredictiveRuntime` constructor parameters read by `plan_stop`. -/
structure RuntimeConsts where
  tau_acc : ℚ
  tau_dec : ℚ
  tau_resp_init : ℚ
deriving Repr

/-- The per-shade input construction inside `PredictiveRuntime.plan_stop`:
no-sample default input, else the staleness policy (direction forced to 0
after 4 s, confidence linearly decayed past 2 s, `safe_when_uncertain`
exactly past 3 s). -/
def buildStopInput (c : RuntimeConsts) (shade_id : String) (st : RuntimeShadeState)
    (timestamp : ℚ) : ShadeStopInput :=
  match st.last_sample with
  | none =>
    { shade_id := shade_id
      position := 0
      velocity := 0
      direction := 0
      baseline := none
      tau_resp := c.tau_resp_init
      tau_acc := c.tau_acc
      tau_dec := c.tau_dec
      v0 := st.learning.theta0
      v1 := st.learning.theta1
      confidence := 0 }
  | some sample =>
    let stale := max 0 (timestamp - sample.time)
    let direction := if 4 < stale then 0 else st.last_direction
    let confidence :=
      if 2 < stale then st.learning.confidence * max 0 (1 - (stale - 2) / 4)
      else st.learning.confidence
    { shade_id := shade_id
      position := sample.position
      velocity := st.last_velocity
      direction := direction
      baseline := st.baseline
      tau_resp := st.learning.tau_resp
      tau_acc := c.tau_acc
      tau_dec := c.tau_dec
      v0 := st.learning.theta0
      v1 := st.learning.theta1
      confidence := confidence
      stale_seconds := stale
      safe_when_uncertain := decide (3 < stale) }

/-- `PredictiveRuntime.plan_stop` (the `_states` map after `get_state` is
modelled as a total lookup `states : String → RuntimeShadeState`, covering
both existing and lazily created default states). -/
def plan_stop (c : RuntimeConsts) (min_conf_scale : ℚ)
    (states : String → RuntimeShadeState) (enabled : Bool)
    (shade_ids : List String) (timestamp : ℚ) : PlanResult :=
  let inputs := shade_ids.map (fun sid => buildStopInput c sid (states sid) timestamp)
  if !enabled then
    { targets := inputs.map (fun i => ⟨i.shade_id, i.position, false, 0⟩), flush := true }
  else
    plan_targets min_conf_scale inputs

/-! ## Online learning (`learning.py`)

Python floats are modelled over `ℝ` here because `update_speed` takes a
square root (`** 0.5`).  Persisted JSON-ish values are modelled by `PVal`:
strings are split into those `float()` accepts (`numStr`, carrying their
numeric value) and those it rejects (`badStr`); any other non-numeric
object is `junk` (on which `float()` raises `TypeError`). -/

/-- A value occurring in a persisted learning payload. -/
inductive PVal where
  | num (q : ℚ)
  | numStr (q : ℚ)
  | badStr (s : String)
  | boolVal (b : Bool)
  | null
  | dict (entries : List (String × PVal))
  | junk
deriving Repr

/-- Python `float(value)`: numbers and numeric strings convert, booleans map
to 0/1, everything else raises (`.error`). -/
def pyFloat : PVal → Except Unit ℚ
  | .num q => .ok q
  | .numStr q => .ok q
  | .boolVal b => .ok (if b then 1 else 0)
  | _ => .error ()

/-- Truncation toward zero, as performed by Python `int()` on a float. -/
def ratTrunc (q : ℚ) : ℤ := if q < 0 then ⌈q⌉ else ⌊q⌋

/-- Python `int(value)`: floats truncate toward zero, strings must spell an
integer (`int("3.5")` raises), booleans map to 0/1, everything else raises. -/
def pyInt : PVal → Except Unit ℤ
  | .num q => .ok (ratTrunc q)
  | .numStr q => if q.den = 1 then .ok q.num else .error ()
  | .boolVal b => .ok (if b then 1 else 0)
  | _ => .error ()

/-- Lookup in a Python dict modelled as an association list. -/
def lookupPV (entries : List (String × PVal)) (key : String) : Option PVal :=
  (entries.find? (fun e => e.1 == key)).map (fun e => e.2)

/-- `float(payload.get(key, default))` where `default` is already a float. -/
def pvFloatOr (entries : List (String × PVal)) (key : String) (dflt : ℚ) : Except Unit ℚ :=
  match lookupPV entries key with
  | none => .ok dflt
  | some v => pyFloat v

/-- `int(payload.get(key, default))` where `default` is already an int. -/
def pvIntOr (entries : List (String × PVal)) (key : String) (dflt : ℤ) : Except Unit ℤ :=
  match lookupPV entries key with
  | none => .ok dflt
  | some v => pyInt v

/-- The `defaults` mapping handed to `LearningManager` (only the keys read
by `ShadeLearningState.from_dict` are relevant here). -/
structure LearnDefaults where
  tau_resp : ℚ
  forgetting : ℚ
deriving Repr

/-- `RecursiveLeastSquares`: two-parameter RLS estimator state. -/
structure RLSState (α : Type*) where
  theta0 : α
  theta1 : α
  cov_00 : α
  cov_01 : α
  cov_11 : α
  forgetting : α
deriving Repr

/-- `RecursiveLeastSquares.predict`. -/
def rlsPredict (s : RLSState ℝ) (position : ℝ) : ℝ :=
  s.theta0 + s.theta1 * position

/-- `RecursiveLeastSquares.update`. -/
noncomputable def rlsUpdate (s : RLSState ℝ) (position velocity : ℝ) : RLSState ℝ :=
  let phi0 : ℝ := 1
  let phi1 := position
  let gainDenom := s.forgetting + phi0 * (s.cov_00 * phi0 + s.cov_01 * phi1)
    + phi1 * (s.cov_01 * phi0 + s.cov_11 * phi1)
  let gainDenom := if gainDenom ≤ 1e-6 then 1e-6 else gainDenom
  let gain0 := (s.cov_00 * phi0 + s.cov_01 * phi1) / gainDenom
  let gain1 := (s.cov_01 * phi0 + s.cov_11 * phi1) / gainDenom
  let estimate := s.theta0 * phi0 + s.theta1 * phi1
  let error := velocity - estimate
  { theta0 := s.theta0 + gain0 * error
    theta1 := s.theta1 + gain1 * error
    cov_00 := max ((s.cov_00 - gain0 * (s.cov_00 * phi0 + s.cov_01 * phi1)) / s.forgetting) 1e-3
    cov_01 := (s.cov_01 - gain0 * (s.cov_01 * phi0 + s.cov_11 * phi1)) / s.forgetting
    cov_11 := max ((s.cov_11 - gain1 * (s.cov_01 * phi0 + s.cov_11 * phi1)) / s.forgetting) 1e-3
    forgetting := s.forgetting }

/-- `RecursiveLeastSquares.from_dict` (missing keys fall back per field). -/
def rlsFromDict (payload : List (String × PVal)) (default_forgetting : ℚ) :
    Except Unit (RLSState ℚ) := do
  let theta0 ← pvFloatOr payload "theta0" (2 / 5)
  let theta1 ← pvFloatOr payload "theta1" 0
  let cov00 ← pvFloatOr payload "cov_00" 25
  let cov01 ← pvFloatOr payload "cov_01" 0
  let cov11 ← pvFloatOr payload "cov_11" 25
  let forg ← pvFloatOr payload "forgetting" default_forgetting
  return ⟨theta0, theta1, cov00, cov01, cov11, forg⟩

/-- `ShadeLearningState`: per-shade learned parameters.  `last_updated` is
stored by `from_dict` without any conversion, hence kept as a raw `PVal`. -/
structure ShadeLearningState (α : Type*) where
  rls : RLSState α
  tau_resp : α
  rmse : α
  sample_count : ℤ
  confidence : α
  last_updated : PVal
deriving Repr

/-- `ShadeLearningState.create_default`. -/
def create_default (v0 v1 tau_resp forgetting : ℝ) : ShadeLearningState ℝ :=
  { rls := ⟨v0, v1, 25, 0, 25, forgetting⟩
    tau_resp := tau_resp
    rmse := 0.2
    sample_count := 0
    confidence := 0
    last_updated := .null }

/-- `ShadeLearningState._recompute_confidence` (Python `round(x, 6)`). -/
noncomputable def recomputeConfidence (rmse : ℝ) (sample_count : ℤ) : ℝ :=
  round6 (pyClamp (1 - rmse / 0.15) 0 1 * pyClamp ((sample_count : ℝ) / 20) 0 1)

/-- `ShadeLearningState.update_speed` (`** 0.5` modelled by `Real.sqrt`;
its argument is non-negative whenever `sample_count` was non-negative). -/
noncomputable def update_speed (s : ShadeLearningState ℝ) (position velocity : ℝ) :
    ShadeLearningState ℝ :=
  let velocity := max (-2) (min 2 velocity)
  let rls := rlsUpdate s.rls position velocity
  let sample_count := s.sample_count + 1
  let residual := velocity - rlsPredict rls position
  let rmse := Real.sqrt (((sample_count - 1 : ℤ) : ℝ) * s.rmse ^ 2 + residual ^ 2)
  let rmse := rmse / Real.sqrt ((max sample_count 1 : ℤ) : ℝ)
  { s with
    rls := rls
    sample_count := sample_count
    rmse := rmse
    confidence := recomputeConfidence rmse sample_count }

/-- `ShadeLearningState.update_tau_resp`. -/
noncomputable def update_tau_resp (s : ShadeLearningState ℝ) (latency alpha : ℝ) :
    ShadeLearningState ℝ :=
  let latency := max 0.05 (min 1.5 latency)
  { s with tau_resp := (1 - alpha) * s.tau_resp + alpha * latency
           confidence := recomputeConfidence s.rmse s.sample_count }

/-- `ShadeLearningState.from_dict`: missing keys fall back to defaults per
field; a key whose value `float()`/`int()` rejects, or a non-dict payload or
`rls` entry, makes the whole parse raise (`.error`) — the exception is then
swallowed per shade by `LearningManager.from_dict`. -/
def shadeFromDict (defaults : LearnDefaults) (payload : PVal) :
    Except Unit (ShadeLearningState ℚ) :=
  match payload with
  | .dict d => do
    let rls ←
      match lookupPV d "rls" with
      | none => rlsFromDict [] defaults.forgetting
      | some (.dict rd) => rlsFromDict rd defaults.forgetting
      | some _ => .error ()
    let tr ← pvFloatOr d "tau_resp" defaults.tau_resp
    let rm ← pvFloatOr d "rmse" (1 / 5)
    let sc ← pvIntOr d "sample_count" 0
    let cf ← pvFloatOr d "confidence" 0
    return ⟨rls, tr, rm, sc, cf, (lookupPV d "last_updated").getD .null⟩
  | _ => .error ()

/-- Python dict assignment `states[k] = v` on an association list. -/
def insertReplace {β : Type*} (l : List (String × β)) (k : String) (v : β) :
    List (String × β) :=
  if l.any (fun e => e.1 == k) then l.map (fun e => if e.1 == k then (k, v) else e)
  else l ++ [(k, v)]

/-- Association-list lookup (Python dict read). -/
def lookupStr {β : Type*} (l : List (String × β)) (k : String) : Option β :=
  (l.find? (fun e => e.1 == k)).map (fun e => e.2)

/-- `LearningManager.from_dict`: each shade's payload is parsed inside
`try/except Exception: continue`, so a shade whose payload raises is
skipped wholesale and every other shade is unaffected. -/
def managerStatesFromDict (defaults : LearnDefaults)
    (payload : List (String × PVal)) : List (String × ShadeLearningState ℚ) :=
  payload.foldl
    (fun acc e =>
      match shadeFromDict defaults e.2 with
      | .ok s => insertReplace acc e.1 s
      | .error _ => acc)
    []

/-! ## Write batcher (`write.py`) -/

/-- `_QueuedItem`. -/
structure QueuedItem where
  shade_id : String
  position : ℤ
deriving Repr, DecidableEq

/-- The mutable pending state of `ShadeWriteBatcher`: the `_queue` dict
(insertion-ordered, keyed by shade id) and the `_waiters` lists (waiters
are abstract tokens, modelled by naturals). -/
structure BatcherState where
  queue : List QueuedItem
  waiters : String → List ℕ

/-- Python dict assignment `self._queue[shade_id] = item`: replaces in
place, keeping insertion order, or appends a new key at the end. -/
def enqueueQueue (q : List QueuedItem) (sid : String) (pos : ℤ) : List QueuedItem :=
  if q.any (fun it => it.shade_id == sid) then
    q.map (fun it => if it.shade_id == sid then ⟨sid, pos⟩ else it)
  else q ++ [⟨sid, pos⟩]

/-- `ShadeWriteBatcher.enqueue` (the queue/waiter mutations; the awaiting of
the future itself is the caller's suspension point). -/
def enqueue (st : BatcherState) (sid : String) (pos : ℤ) (w : ℕ) : BatcherState :=
  { queue := enqueueQueue st.queue sid pos
    waiters := fun k => if k == sid then st.waiters k ++ [w] else st.waiters k }

/-- The outbound payload built by `_flush` from the swapped-out queue. -/
def payload_items (q : List QueuedItem) : List (String × ℤ) :=
  q.map (fun it => (it.shade_id, it.position))

/-- `ShadeCommandResult` from `api.py`. -/
structure ShadeCommandResult where
  status : String
  message : Option String
deriving Repr, DecidableEq

/-- `ShadeCommandResponse` from `api.py` (per-item results as an
association list keyed by shade id). -/
structure ShadeCommandResponse where
  status : String
  results : List (String × ShadeCommandResult)
deriving Repr, DecidableEq

/-- `default_status = "success" if status in {"success", "partial"} else status`. -/
def default_status (status : String) : String :=
  if status == "success" || status == "partial" then "success" else status

/-- `response.results.get(shade_id)` with the defaulting performed by
`_flush` for shades missing from the per-item results. -/
def resultFor (resp : ShadeCommandResponse) (sid : String) : ShadeCommandResult :=
  match lookupStr resp.results sid with
  | some r => r
  | none => ⟨default_status resp.status, none⟩

/-- The `error_partial_write` message: `_translate`'s built-in fallback
template `"Shade command failed for {shade_id}: {reason}"`. -/
def error_partial_write (sid reason : String) : String :=
  "Shade command failed for " ++ sid ++ ": " ++ reason

/-- How one waiter's future is completed. -/
inductive WaiterOutcome where
  | resolved
  | rejected (msg : String)
deriving Repr, DecidableEq

/-- `result.message or result.status` (an empty-string message is falsy in
Python and falls through to the status). -/
def failReason (r : ShadeCommandResult) : String :=
  match r.message with
  | some m => if m == "" then r.status else m
  | none => r.status

/-- The per-shade branch of `_flush`'s result loop: a non-`"success"`
per-item result rejects that shade's waiters with the partial-write error,
a `"success"` one resolves them. -/
def shadeOutcome (resp : ShadeCommandResponse) (sid : String) : WaiterOutcome :=
  let r := resultFor resp sid
  if r.status ≠ "success" then .rejected (error_partial_write sid (failReason r))
  else .resolved

/-- The complete future-completion assignment of one `_flush` over the
swapped-out queue and waiter lists (each queued shade's waiters all receive
that shade's own outcome; `_resolve_remaining` only ever touches waiter
keys absent from the queue, which `enqueue` never creates). -/
def flushOutcomes (q : List QueuedItem) (waiters : String → List ℕ)
    (resp : ShadeCommandResponse) : List (ℕ × WaiterOutcome) :=
  q.flatMap (fun it => (waiters it.shade_id).map (fun w => (w, shadeOutcome resp it.shade_id)))

/-! ## Theorems -/

/-- **C5** — In `plan_stop`, for every shade with a last sample, letting
`stale = now - last_sample.time`: if `stale > 4` the direction passed to the
planner is forced to 0; if `2 < stale ≤ 4` the confidence passed to the
planner is the stored confidence decayed by the factor `1 - (stale-2)/4`;
and `safe_when_uncertain` is set exactly when `stale > 3`. -/
theorem c5_staleness_policy (c : RuntimeConsts) (shade_id : String)
    (st : RuntimeShadeState) (timestamp : ℚ) (sample : MotionSample)
    (h : st.last_sample = some sample) :
    (4 < timestamp - sample.time →
      (buildStopInput c shade_id st timestamp).direction = 0) ∧
    (2 < timestamp - sample.time ∧ timestamp - sample.time ≤ 4 →
      (buildStopInput c shade_id st timestamp).confidence
        = st.learning.confidence * (1 - (timestamp - sample.time - 2) / 4)) ∧
    ((buildStopInput c shade_id st timestamp).safe_when_uncertain = true ↔
      3 < timestamp - sample.time) := by
  have hmax : ∀ q : ℚ, 0 < q → (max 0 (timestamp - sample.time) > q ↔
      timestamp - sample.time > q) := by
    intro q hq
    constructor
    · intro hgt
      rcases max_cases 0 (timestamp - sample.time) with ⟨he, _⟩ | ⟨he, _⟩
      · rw [he] at hgt; exact absurd hgt (not_lt.mpr (le_of_lt hq))
      · rwa [he] at hgt
    · intro hgt
      exact lt_of_lt_of_le hgt (le_max_right _ _)
  refine ⟨?_, ?_, ?_⟩
  · intro h4
    simp only [buildStopInput, h]
    rw [if_pos ((hmax 4 (by norm_num)).mpr h4)]
  · rintro ⟨h2, _⟩
    have hs : max 0 (timestamp - sample.time) = timestamp - sample.time :=
      max_eq_right (by linarith)
    simp only [buildStopInput, h, hs]
    rw [if_pos h2, max_eq_right (by linarith)]
  · simp only [buildStopInput, h, decide_eq_true_eq]
    exact hmax 3 (by norm_num)

/-- Witness for `c5_staleness_policy`: a shade whose last sample is 3.5
seconds old gets its stored confidence scaled by `1 - 1.5/4 = 0.625` and the
`safe_when_uncertain` flag set. -/
theorem c5_staleness_policy_witness :
    (buildStopInput ⟨1, 1, 1/5⟩ "shade-1"
        ⟨⟨9/10, 3/20, 2/5, 0⟩, some ⟨10, 1/2⟩, 3/10, 1, some (1/5)⟩ (27/2)).confidence
      = (9/10) * (1 - ((27/2) - 10 - 2) / 4) ∧
    (buildStopInput ⟨1, 1, 1/5⟩ "shade-1"
        ⟨⟨9/10, 3/20, 2/5, 0⟩, some ⟨10, 1/2⟩, 3/10, 1, some (1/5)⟩ (27/2)).safe_when_uncertain
      = true := by
  have h := c5_staleness_policy ⟨1, 1, 1/5⟩ "shade-1"
    ⟨⟨9/10, 3/20, 2/5, 0⟩, some ⟨10, 1/2⟩, 3/10, 1, some (1/5)⟩ (27/2) ⟨10, 1/2⟩ rfl
  refine ⟨?_, ?_⟩
  · have := h.2.1 ⟨by norm_num, by norm_num⟩
    simpa using this
  · exact h.2.2.mpr (by norm_num)

/-- **C10** — `pct_to_raw` and `raw_to_pct` are total on every non-empty
anchor sequence, without any validity precondition: `pct_to_raw` always
lands in `[CAL_ANCHOR_RAW_MIN, CAL_ANCHOR_RAW_MAX]`; `raw_to_pct` returns
`none` exactly on `none`, and otherwise an integer in `[0, 100]`. -/
theorem c10_totality (p : ℤ) (anchors : List Anchor) (inv : Bool)
    (hne : anchors ≠ []) :
    (CAL_ANCHOR_RAW_MIN ≤ pct_to_raw p anchors inv ∧
      pct_to_raw p anchors inv ≤ CAL_ANCHOR_RAW_MAX) ∧
    raw_to_pct none anchors inv = none ∧
    (∀ r : ℤ, ∃ k : ℤ, raw_to_pct (some r) anchors inv = some k ∧
      0 ≤ k ∧ k ≤ 100) := by
  refine ⟨?_, rfl, ?_⟩
  · unfold pct_to_raw
    simp only [CAL_ANCHOR_RAW_MIN, CAL_ANCHOR_RAW_MAX]
    split_ifs <;> omega
  · intro r
    unfold raw_to_pct
    simp only [CAL_ANCHOR_PC_MIN, CAL_ANCHOR_PC_MAX]
    refine ⟨_, rfl, ?_⟩
    split_ifs <;> omega

/-- Witness for `c10_totality`, at `p = 23` over the default anchors. -/
theorem c10_totality_witness :
    (CAL_ANCHOR_RAW_MIN ≤ pct_to_raw 23 DEFAULT_ANCHORS false ∧
      pct_to_raw 23 DEFAULT_ANCHORS false ≤ CAL_ANCHOR_RAW_MAX) ∧
    raw_to_pct none DEFAULT_ANCHORS false = none ∧
    (∀ r : ℤ, ∃ k : ℤ, raw_to_pct (some r) DEFAULT_ANCHORS false = some k ∧
      0 ≤ k ∧ k ≤ 100) :=
  c10_totality 23 DEFAULT_ANCHORS false (by simp [DEFAULT_ANCHORS])

theorem enqueueQueue_map_shade_id (q : List QueuedItem) (sid : String) (pos : ℤ) :
    (enqueueQueue q sid pos).map (fun it => it.shade_id)
      = if q.any (fun it => it.shade_id == sid) then q.map (fun it => it.shade_id)
        else q.map (fun it => it.shade_id) ++ [sid] := by
  unfold enqueueQueue
  split
  · rw [List.map_map, List.map_congr_left]
    intro a _
    simp only [Function.comp_apply]
    split
    · next hb => exact (beq_iff_eq.mp hb).symm
    · rfl
  · simp

theorem enqueueQueue_filter (q : List QueuedItem) (sid : String) (pos : ℤ)
    (hnd : (q.map (fun it => it.shade_id)).Nodup) :
    (enqueueQueue q sid pos).filter (fun it => it.shade_id == sid)
      = [⟨sid, pos⟩] := by
  unfold enqueueQueue
  split
  · next hany =>
    induction q with
    | nil => simp at hany
    | cons a t ih =>
      simp only [List.map_cons, List.nodup_cons] at hnd
      by_cases ha : (a.shade_id == sid) = true
      · have haid : a.shade_id = sid := beq_iff_eq.mp ha
        have hnone : ∀ b ∈ t, ¬ (b.shade_id == sid) = true := by
          intro b hb hbid
          exact hnd.1 (haid ▸ (beq_iff_eq.mp hbid) ▸
            List.mem_map_of_mem (fun it => it.shade_id) hb)
        have hmapt : t.map (fun it : QueuedItem =>
            if (it.shade_id == sid) = true then (⟨sid, pos⟩ : QueuedItem) else it) = t := by
          rw [List.map_congr_left (g := id)
            (fun b hb => by simp only [id]; rw [if_neg (hnone b hb)]), List.map_id]
        rw [List.map_cons, if_pos ha, hmapt, List.filter_cons,
          if_pos (show ((⟨sid, pos⟩ : QueuedItem).shade_id == sid) = true from
            beq_self_eq_true sid),
          List.filter_eq_nil_iff.mpr hnone]
      · have hany' : t.any (fun it => it.shade_id == sid) = true := by
          rcases List.any_eq_true.mp hany with ⟨x, hx, hxid⟩
          rcases List.mem_cons.mp hx with rfl | hxt
          · exact absurd hxid ha
          · exact List.any_eq_true.mpr ⟨x, hxt, hxid⟩
        rw [List.map_cons, if_neg ha, List.filter_cons, if_neg ha]
        exact ih hnd.2 hany'
  · next hany =>
    have hany2 : ¬ q.any (fun it => it.shade_id == sid) = true := by simpa using hany
    rw [List.filter_append]
    rw [List.filter_eq_nil_iff.mpr (fun a ha hid =>
      hany2 (List.any_eq_true.mpr ⟨a, ha, hid⟩))]
    simp

/-- **C6** — Enqueuing the same shade id twice before a flush leaves exactly
one outbound item for that shade, carrying the last-enqueued position; both
callers' waiters are attached to that shade and both receive that shade's
single per-batch outcome in the subsequent flush. -/
theorem c6_dedup_last_writer_wins (st : BatcherState) (sid : String)
    (p1 p2 : ℤ) (w1 w2 : ℕ) (resp : ShadeCommandResponse)
    (hnd : (st.queue.map (fun it => it.shade_id)).Nodup) :
    ((payload_items (enqueue (enqueue st sid p1 w1) sid p2 w2).queue).filter
        (fun e => e.1 == sid) = [(sid, p2)]) ∧
    ((enqueue (enqueue st sid p1 w1) sid p2 w2).waiters sid
      = st.waiters sid ++ [w1, w2]) ∧
    ((w1, shadeOutcome resp sid) ∈
        flushOutcomes (enqueue (enqueue st sid p1 w1) sid p2 w2).queue
          (enqueue (enqueue st sid p1 w1) sid p2 w2).waiters resp) ∧
    ((w2, shadeOutcome resp sid) ∈
        flushOutcomes (enqueue (enqueue st sid p1 w1) sid p2 w2).queue
          (enqueue (enqueue st sid p1 w1) sid p2 w2).waiters resp) := by
  have hnd1 : (((enqueue st sid p1 w1).queue).map (fun it => it.shade_id)).Nodup := by
    simp only [enqueue]
    rw [enqueueQueue_map_shade_id]
    split
    · exact hnd
    · next hany =>
      rw [List.nodup_append]
      refine ⟨hnd, List.nodup_singleton sid, ?_⟩
      intro a ha hb
      simp only [List.mem_singleton] at hb
      rw [hb] at ha
      rcases List.mem_map.mp ha with ⟨it, hit, hid⟩
      have hany2 : ¬ st.queue.any (fun it => it.shade_id == sid) = true := by
        simpa using hany
      exact hany2
        (List.any_eq_true.mpr ⟨it, hit, by rw [hid]; exact beq_self_eq_true sid⟩)
  have hfq : ((enqueue (enqueue st sid p1 w1) sid p2 w2).queue).filter
      (fun it => it.shade_id == sid) = [⟨sid, p2⟩] := by
    simp only [enqueue]
    exact enqueueQueue_filter _ sid p2 hnd1
  have hmem : (⟨sid, p2⟩ : QueuedItem) ∈ (enqueue (enqueue st sid p1 w1) sid p2 w2).queue := by
    have : (⟨sid, p2⟩ : QueuedItem) ∈ ((enqueue (enqueue st sid p1 w1) sid p2 w2).queue).filter
        (fun it => it.shade_id == sid) := by
      rw [hfq]; exact List.mem_singleton_self _
    exact List.mem_of_mem_filter this
  have hw : (enqueue (enqueue st sid p1 w1) sid p2 w2).waiters sid
      = st.waiters sid ++ [w1, w2] := by
    simp [enqueue]
  refine ⟨?_, hw, ?_, ?_⟩
  · unfold payload_items
    rw [List.filter_map]
    have : ((fun e : String × ℤ => e.1 == sid) ∘ fun it : QueuedItem => (it.shade_id, it.position))
        = fun it : QueuedItem => it.shade_id == sid := rfl
    rw [this, hfq]
    rfl
  · refine List.mem_flatMap.mpr ⟨⟨sid, p2⟩, hmem, ?_⟩
    refine List.mem_map.mpr ⟨w1, ?_, rfl⟩
    rw [hw]
    simp
  · refine List.mem_flatMap.mpr ⟨⟨sid, p2⟩, hmem, ?_⟩
    refine List.mem_map.mpr ⟨w2, ?_, rfl⟩
    rw [hw]
    simp

/-- Witness for `c6_dedup_last_writer_wins`: two enqueues for `"s1"` into an
empty batcher, flushed against a response whose per-item result for `"s1"`
is a success. -/
theorem c6_dedup_last_writer_wins_witness :
    ((payload_items (enqueue (enqueue ⟨[], fun _ => []⟩ "s1" 1000 0) "s1" 2000 1).queue).filter
        (fun e => e.1 == "s1") = [("s1", 2000)]) ∧
    ((enqueue (enqueue ⟨[], fun _ => []⟩ "s1" 1000 0) "s1" 2000 1).waiters "s1" = [0, 1]) ∧
    ((0, shadeOutcome ⟨"success", []⟩ "s1") ∈
        flushOutcomes (enqueue (enqueue ⟨[], fun _ => []⟩ "s1" 1000 0) "s1" 2000 1).queue
          (enqueue (enqueue ⟨[], fun _ => []⟩ "s1" 1000 0) "s1" 2000 1).waiters
          ⟨"success", []⟩) ∧
    ((1, shadeOutcome ⟨"success", []⟩ "s1") ∈
        flushOutcomes (enqueue (enqueue ⟨[], fun _ => []⟩ "s1" 1000 0) "s1" 2000 1).queue
          (enqueue (enqueue ⟨[], fun _ => []⟩ "s1" 1000 0) "s1" 2000 1).waiters
          ⟨"success", []⟩) := by
  have h := c6_dedup_last_writer_wins ⟨[], fun _ => []⟩ "s1" 1000 2000 0 1
    ⟨"success", []⟩ (by simp)
  exact ⟨h.1, h.2.1, h.2.2.1, h.2.2.2⟩

/-- **C7** (amended) — In `_flush`'s result handling: a shade missing from
the per-item results receives the defaulted status, which is `"success"`
exactly when the overall status is `"success"` or `"partial"` (any other
overall status, including `"failure"`, is used verbatim); a shade whose
per-item result is not `"success"` is rejected with a message containing
its shade id and the failure reason; a shade whose result is `"success"`
resolves; and every queued waiter receives precisely its own shade's
outcome (partial-failure isolation). -/
theorem c7_partial_failure_isolation (resp : ShadeCommandResponse) (sid : String) :
    (lookupStr resp.results sid = none →
      resultFor resp sid = ⟨default_status resp.status, none⟩ ∧
      (default_status resp.status = "success" ↔
        (resp.status = "success" ∨ resp.status = "partial"))) ∧
    ((resultFor resp sid).status ≠ "success" →
      shadeOutcome resp sid
        = .rejected (error_partial_write sid (failReason (resultFor resp sid))) ∧
      (∃ pre post : String, error_partial_write sid (failReason (resultFor resp sid))
          = pre ++ sid ++ post) ∧
      (∃ pre : String, error_partial_write sid (failReason (resultFor resp sid))
          = pre ++ failReason (resultFor resp sid))) ∧
    ((resultFor resp sid).status = "success" → shadeOutcome resp sid = .resolved) ∧
    (∀ (q : List QueuedItem) (waiters : String → List ℕ) (it : QueuedItem) (w : ℕ),
      it ∈ q → w ∈ waiters it.shade_id →
      (w, shadeOutcome resp it.shade_id) ∈ flushOutcomes q waiters resp) := by
  refine ⟨?_, ?_, ?_, ?_⟩
  · intro h
    refine ⟨by unfold resultFor; rw [h], ?_⟩
    unfold default_status
    by_cases hs : (resp.status == "success" || resp.status == "partial") = true
    · rw [if_pos hs]
      simp only [Bool.or_eq_true, beq_iff_eq] at hs
      exact ⟨fun _ => hs, fun _ => rfl⟩
    · rw [if_neg hs]
      simp only [Bool.or_eq_true, beq_iff_eq] at hs
      push_neg at hs
      exact ⟨fun h1 => absurd h1 hs.1, fun h1 => absurd h1 (by
        rcases h1 with h1 | h1
        · exact absurd h1 hs.1
        · exact absurd h1 hs.2)⟩
  · intro h
    refine ⟨by unfold shadeOutcome; rw [if_pos h], ?_, ?_⟩
    · exact ⟨"Shade command failed for ", ": " ++ failReason (resultFor resp sid),
        by unfold error_partial_write; rw [String.append_assoc]⟩
    · exact ⟨"Shade command failed for " ++ sid ++ ": ", rfl⟩
  · intro h
    unfold shadeOutcome
    rw [if_neg (by simp [h])]
  · intro q waiters it w hq hw
    exact List.mem_flatMap.mpr ⟨it, hq,
      List.mem_map_of_mem (fun w => (w, shadeOutcome resp it.shade_id)) hw⟩

/-- Counterexample for **C7** as stated: for a response with overall status
`"queued"` (any status other than `"success"`/`"partial"`/`"failure"`), a
shade missing from the per-item results does *not* default to `"success"`
even though the overall status is not `"failure"` — its waiters are
rejected. -/
theorem c7_default_unless_failure_counterexample :
    lookupStr (⟨"queued", []⟩ : ShadeCommandResponse).results "a" = none ∧
    (⟨"queued", []⟩ : ShadeCommandResponse).status ≠ "failure" ∧
    (resultFor ⟨"queued", []⟩ "a").status ≠ "success" ∧
    shadeOutcome ⟨"queued", []⟩ "a"
      = .rejected (error_partial_write "a" "queued") :=
  ⟨rfl, by decide, by decide, rfl⟩

/-- Witness for `c7_partial_failure_isolation`: the repository's partial
failure scenario — overall status `"partial"`, shade `"a"` succeeds, shade
`"b"` fails with message `"offline"`, shade `"c"` is unmapped. -/
theorem c7_partial_failure_isolation_witness :
    (shadeOutcome ⟨"partial", [("a", ⟨"success", none⟩), ("b", ⟨"failure", some "offline"⟩)]⟩ "b"
      = .rejected (error_partial_write "b"
          (failReason (resultFor ⟨"partial", [("a", ⟨"success", none⟩),
            ("b", ⟨"failure", some "offline"⟩)]⟩ "b"))) ∧
      (∃ pre post : String, error_partial_write "b"
          (failReason (resultFor ⟨"partial", [("a", ⟨"success", none⟩),
            ("b", ⟨"failure", some "offline"⟩)]⟩ "b"))
        = pre ++ "b" ++ post) ∧
      (∃ pre : String, error_partial_write "b"
          (failReason (resultFor ⟨"partial", [("a", ⟨"success", none⟩),
            ("b", ⟨"failure", some "offline"⟩)]⟩ "b"))
        = pre ++ failReason (resultFor ⟨"partial", [("a", ⟨"success", none⟩),
            ("b", ⟨"failure", some "offline"⟩)]⟩ "b"))) ∧
    (shadeOutcome ⟨"partial", [("a", ⟨"success", none⟩), ("b", ⟨"failure", some "offline"⟩)]⟩ "a"
      = .resolved) ∧
    (resultFor ⟨"partial", [("a", ⟨"success", none⟩), ("b", ⟨"failure", some "offline"⟩)]⟩ "c"
      = ⟨default_status "partial", none⟩ ∧
      (default_status "partial" = "success" ↔
        (("partial" : String) = "success" ∨ ("partial" : String) = "partial"))) := by
  refine ⟨?_, ?_, ?_⟩
  · exact (c7_partial_failure_isolation
      ⟨"partial", [("a", ⟨"success", none⟩), ("b", ⟨"failure", some "offline"⟩)]⟩ "b").2.1
      (by simp [resultFor, lookupStr])
  · exact (c7_partial_failure_isolation
      ⟨"partial", [("a", ⟨"success", none⟩), ("b", ⟨"failure", some "offline"⟩)]⟩ "a").2.2.1
      (by simp [resultFor, lookupStr])
  · exact (c7_partial_failure_isolation
      ⟨"partial", [("a", ⟨"success", none⟩), ("b", ⟨"failure", some "offline"⟩)]⟩ "c").1
      (by simp [lookupStr])

theorem lookupStr_eq_none {β : Type*} (l : List (String × β)) (k : String)
    (h : ∀ e ∈ l, ¬ (e.1 == k) = true) : lookupStr l k = none := by
  unfold lookupStr
  rw [List.find?_eq_none.mpr h]
  rfl

/-- `LearningManager.from_dict` over distinct shade ids builds exactly the
successfully parsed states, in order. -/
theorem managerStatesFromDict_eq_filterMap (defaults : LearnDefaults)
    (payload : List (String × PVal))
    (hnd : (payload.map Prod.fst).Nodup) :
    managerStatesFromDict defaults payload
      = payload.filterMap (fun e =>
          match shadeFromDict defaults e.2 with
          | .ok s => some (e.1, s)
          | .error _ => none) := by
  suffices h : ∀ (pl : List (String × PVal)) (acc : List (String × ShadeLearningState ℚ)),
      (∀ k ∈ pl.map Prod.fst, ¬ acc.any (fun e => e.1 == k) = true) →
      (pl.map Prod.fst).Nodup →
      pl.foldl (fun acc e =>
        match shadeFromDict defaults e.2 with
        | .ok s => insertReplace acc e.1 s
        | .error _ => acc) acc
      = acc ++ pl.filterMap (fun e =>
          match shadeFromDict defaults e.2 with
          | .ok s => some (e.1, s)
          | .error _ => none) by
    unfold managerStatesFromDict
    rw [h payload [] (by simp) hnd]
    rfl
  intro pl
  induction pl with
  | nil => intro acc _ _; simp
  | cons e rest ih =>
    intro acc hacc hnd
    simp only [List.map_cons, List.nodup_cons] at hnd
    rw [List.foldl_cons]
    rcases hok : shadeFromDict defaults e.2 with herr | s
    · rw [List.filterMap_cons]
      simp only [hok]
      exact ih acc (fun k hk => hacc k (by simp [hk])) hnd.2
    · have hnotin : ¬ acc.any (fun a => a.1 == e.1) = true :=
        hacc e.1 (by simp)
      have hins : insertReplace acc e.1 s = acc ++ [(e.1, s)] := by
        unfold insertReplace
        rw [if_neg hnotin]
      rw [List.filterMap_cons]
      simp only [hok, hins]
      rw [ih (acc ++ [(e.1, s)]) ?_ hnd.2]
      · rw [List.append_assoc]
        rfl
      · intro k hk
        rw [List.any_append]
        simp only [Bool.or_eq_true, not_or]
        refine ⟨hacc k (by simp [hk]), ?_⟩
        simp only [List.any_cons, List.any_nil, Bool.or_false]
        intro hek
        exact hnd.1 ((beq_iff_eq.mp hek) ▸ hk)

theorem lookupStr_filterMap_parse (defaults : LearnDefaults)
    (payload : List (String × PVal)) (sid : String) (p : PVal)
    (hnd : (payload.map Prod.fst).Nodup)
    (hp : lookupStr payload sid = some p) :
    lookupStr (payload.filterMap (fun e =>
        match shadeFromDict defaults e.2 with
        | .ok s => some (e.1, s)
        | .error _ => none)) sid
      = match shadeFromDict defaults p with
        | .ok s => some s
        | .error _ => none := by
  induction payload with
  | nil => simp [lookupStr] at hp
  | cons e rest ih =>
    simp only [List.map_cons, List.nodup_cons] at hnd
    by_cases he : (e.1 == sid) = true
    · have hpe : p = e.2 := by
        unfold lookupStr at hp
        rw [List.find?_cons_of_pos (p := fun x : String × PVal => x.1 == sid) _ he] at hp
        simpa using hp.symm
      subst hpe
      have hrest : ∀ a ∈ rest.filterMap (fun e =>
          match shadeFromDict defaults e.2 with
          | .ok s => some (e.1, s)
          | .error _ => none), ¬ (a.1 == sid) = true := by
        intro a ha hak
        rcases List.mem_filterMap.mp ha with ⟨b, hb, hgb⟩
        have hab : a.1 = b.1 := by
          rcases hgok : shadeFromDict defaults b.2 with _ | s
          · rw [hgok] at hgb; exact absurd hgb (by simp)
          · rw [hgok] at hgb
            simp only [Option.some_inj] at hgb
            rw [← hgb]
        apply hnd.1
        rw [beq_iff_eq.mp he, ← beq_iff_eq.mp hak, hab]
        exact List.mem_map_of_mem Prod.fst hb
      rw [List.filterMap_cons]
      rcases hok : shadeFromDict defaults e.2 with herr | s
      · simp only [hok]
        exact lookupStr_eq_none _ sid hrest
      · simp only [hok]
        unfold lookupStr
        rw [List.find?_cons_of_pos (p := fun x : String × ShadeLearningState ℚ => x.1 == sid)
          _ he]
        rfl
    · have hp' : lookupStr rest sid = some p := by
        unfold lookupStr at hp ⊢
        rw [List.find?_cons_of_neg (p := fun x : String × PVal => x.1 == sid) _ he] at hp
        exact hp
      rw [List.filterMap_cons]
      rcases hok : shadeFromDict defaults e.2 with herr | s
      · simp only [hok]
        exact ih hnd.2 hp'
      · simp only [hok]
        unfold lookupStr
        rw [List.find?_cons_of_neg (p := fun x : String × ShadeLearningState ℚ => x.1 == sid)
          _ he]
        exact ih hnd.2 hp'

/-- **C8** (amended) — Deserialising persisted learning state never raises,
and fallback is per shade, not per field: a per-shade payload that parses
is kept verbatim, a payload any of whose present fields is malformed is
discarded wholesale (that shade reverts entirely to defaults), leaving all
other shades untouched; fields *missing* from a payload do fall back to
their defaults individually, valid present fields being retained. -/
theorem c8_per_shade_fallback (defaults : LearnDefaults)
    (payload : List (String × PVal)) (sid : String) (p : PVal)
    (hnd : (payload.map Prod.fst).Nodup)
    (hp : lookupStr payload sid = some p) :
    (∀ s, shadeFromDict defaults p = .ok s →
      lookupStr (managerStatesFromDict defaults payload) sid = some s) ∧
    (shadeFromDict defaults p = .error () →
      lookupStr (managerStatesFromDict defaults payload) sid = none) ∧
    (∀ q : ℚ, shadeFromDict defaults (.dict [("rmse", .num q)])
      = .ok ⟨⟨2 / 5, 0, 25, 0, 25, defaults.forgetting⟩,
          defaults.tau_resp, q, 0, 0, .null⟩) := by
  have hbase := lookupStr_filterMap_parse defaults payload sid p hnd hp
  rw [managerStatesFromDict_eq_filterMap defaults payload hnd]
  refine ⟨?_, ?_, ?_⟩
  · intro s hs
    rw [hbase, hs]
  · intro hs
    rw [hbase, hs]
  · intro q
    rfl

/-- Counterexample for **C8** as stated: the per-shade payload
`{"tau_resp": "abc", "rmse": 0.5}` has one malformed and one valid field;
per-field fallback would keep `rmse = 0.5`, but the parse raises and
`LearningManager.from_dict` discards the whole shade, leaving no state at
all for `"s1"`. -/
theorem c8_per_field_counterexample :
    shadeFromDict ⟨3 / 20, 49 / 50⟩
        (.dict [("tau_resp", .badStr "abc"), ("rmse", .num (1 / 2))]) = .error () ∧
    managerStatesFromDict ⟨3 / 20, 49 / 50⟩
        [("s1", .dict [("tau_resp", .badStr "abc"), ("rmse", .num (1 / 2))])] = [] ∧
    lookupStr (managerStatesFromDict ⟨3 / 20, 49 / 50⟩
        [("s1", .dict [("tau_resp", .badStr "abc"), ("rmse", .num (1 / 2))])]) "s1"
      = none :=
  ⟨rfl, rfl, rfl⟩

/-- Witness for `c8_per_shade_fallback`: a two-shade payload where `"s1"`
is malformed and `"s2"` parses; `"s1"` disappears, `"s2"` is retained. -/
theorem c8_per_shade_fallback_witness :
    lookupStr (managerStatesFromDict ⟨3 / 20, 49 / 50⟩
        [("s1", .dict [("tau_resp", .badStr "abc"), ("rmse", .num (1 / 2))]),
         ("s2", .dict [("rmse", .num (1 / 2))])]) "s1" = none ∧
    lookupStr (managerStatesFromDict ⟨3 / 20, 49 / 50⟩
        [("s1", .dict [("tau_resp", .badStr "abc"), ("rmse", .num (1 / 2))]),
         ("s2", .dict [("rmse", .num (1 / 2))])]) "s2"
      = some ⟨⟨2 / 5, 0, 25, 0, 25, (⟨3 / 20, 49 / 50⟩ : LearnDefaults).forgetting⟩,
          (⟨3 / 20, 49 / 50⟩ : LearnDefaults).tau_resp, 1 / 2, 0, 0, .null⟩ := by
  constructor
  · exact (c8_per_shade_fallback ⟨3 / 20, 49 / 50⟩
      [("s1", .dict [("tau_resp", .badStr "abc"), ("rmse", .num (1 / 2))]),
       ("s2", .dict [("rmse", .num (1 / 2))])] "s1"
      (.dict [("tau_resp", .badStr "abc"), ("rmse", .num (1 / 2))])
      (by simp) rfl).2.1 rfl
  · exact (c8_per_shade_fallback ⟨3 / 20, 49 / 50⟩
      [("s1", .dict [("tau_resp", .badStr "abc"), ("rmse", .num (1 / 2))]),
       ("s2", .dict [("rmse", .num (1 / 2))])] "s2"
      (.dict [("rmse", .num (1 / 2))])
      (by simp) rfl).1 _ rfl

theorem length_filter_add_length_filter_not {α : Type*} (l : List α) (p : α → Bool) :
    (l.filter p).length + (l.filter (fun a => !(p a))).length = l.length := by
  induction l with
  | nil => rfl
  | cons a t ih =>
    by_cases h : p a = true <;> simp [List.filter_cons, h] <;> omega

theorem plannedTarget_shade_id (gd gc : ℚ) (item : ShadeStopInput) (f : ℚ) :
    (plannedTarget gd gc item f).shade_id = item.shade_id := rfl

theorem plannedTarget_distance (gd gc : ℚ) (item : ShadeStopInput) (f : ℚ) :
    (plannedTarget gd gc item f).distance = f := rfl

theorem stopGuard_ge (d : ℤ) (pos q : ℚ) (hd : 0 < d) :
    pos ≤ (if 0 < d ∧ q < pos then pos else if d < 0 ∧ pos < q then pos else q) := by
  split_ifs with h1 h2
  · exact le_rfl
  · exact le_rfl
  · rcases not_and_or.mp h1 with h | h
    · exact absurd hd h
    · exact not_lt.mp h

theorem stopGuard_le (d : ℤ) (pos q : ℚ) (hd : d < 0) :
    (if 0 < d ∧ q < pos then pos else if d < 0 ∧ pos < q then pos else q) ≤ pos := by
  split_ifs with h1 h2
  · exact le_rfl
  · exact le_rfl
  · rcases not_and_or.mp h2 with h | h
    · exact absurd hd h
    · exact not_lt.mp h

theorem plannedTarget_no_backtrack (gd gc : ℚ) (item : ShadeStopInput) (f : ℚ) :
    (0 < item.direction → item.position ≤ (plannedTarget gd gc item f).position) ∧
    (item.direction < 0 → (plannedTarget gd gc item f).position ≤ item.position) := by
  constructor
  · intro hd
    show item.position ≤ (if 0 < (if 0 < item.direction then (1 : ℤ) else -1) ∧ _ < item.position
      then item.position else _)
    exact stopGuard_ge _ _ _ (by rw [if_pos hd]; norm_num)
  · intro hd
    show (if 0 < (if 0 < item.direction then (1 : ℤ) else -1) ∧ _ < item.position
      then item.position else _) ≤ item.position
    exact stopGuard_le _ _ _ (by rw [if_neg (by omega)]; norm_num)

/-- Every target returned by `plan_targets` is either the planned target of
a moving input (for the call's group delta/coast) or the pass-through
target of a stationary input. -/
theorem plan_targets_targets_mem (m : ℚ) (inputs : List ShadeStopInput)
    (hnd : (inputs.map (fun i => i.shade_id)).Nodup) :
    ∀ t ∈ (plan_targets m inputs).targets, ∃ i ∈ inputs, t.shade_id = i.shade_id ∧
      ((i.direction ≠ 0 ∧ ∃ gd gc : ℚ, t = plannedTarget gd gc i (plannedForward m i).2) ∨
       (i.direction = 0 ∧ t = ⟨i.shade_id, i.position, false, 0⟩)) := by
  intro t ht
  simp only [plan_targets] at ht
  by_cases hact : (inputs.filter fun i => decide (i.direction ≠ 0)).isEmpty = true
  · rw [if_pos hact] at ht
    rcases List.mem_map.mp ht with ⟨i, hi, hti⟩
    have hall : ∀ j ∈ inputs, j.direction = 0 := by
      intro j hj
      have := List.filter_eq_nil_iff.mp (List.isEmpty_iff.mp hact) j hj
      simpa using this
    exact ⟨i, hi, by rw [← hti], Or.inr ⟨hall i hi, hti.symm⟩⟩
  · rw [if_neg hact] at ht
    rcases List.mem_append.mp ht with hmain | hextra
    · rcases List.mem_map.mp hmain with ⟨p, hp, htp⟩
      rcases List.mem_map.mp hp with ⟨i, hi, hpi⟩
      have hpi' : (i, plannedForward m i) = p := hpi
      subst hpi'
      dsimp only at htp
      have hidir : i.direction ≠ 0 := by
        have := (List.mem_filter.mp hi).2
        simpa using this
      refine ⟨i, List.mem_of_mem_filter hi, ?_, Or.inl ⟨hidir, ⟨_, _, htp.symm⟩⟩⟩
      rw [← htp]
      exact plannedTarget_shade_id _ _ _ _
    · rcases List.mem_map.mp hextra with ⟨i, hi, hti⟩
      have hmem : i ∈ inputs := List.mem_of_mem_filter hi
      have hcont := (List.mem_filter.mp hi).2
      have hrem := List.elem_iff.mp hcont
      have hd0 : i.direction = 0 := by
        rcases List.mem_map.mp (List.mem_of_mem_filter hrem) with ⟨j, hj, hji⟩
        have hj0 : j.direction = 0 := by
          have := (List.mem_filter.mp hj).2
          simpa using this
        have hij : j = i :=
          List.inj_on_of_nodup_map hnd (List.mem_of_mem_filter hj) hmem hji
        rw [← hij]
        exact hj0
      exact ⟨i, hmem, by rw [← hti], Or.inr ⟨hd0, hti.symm⟩⟩

/-- Every input to `plan_targets` has a target with its shade id: moving
inputs get their planned target, stationary inputs their pass-through. -/
theorem plan_targets_targets_complete (m : ℚ) (inputs : List ShadeStopInput)
    (hnd : (inputs.map (fun i => i.shade_id)).Nodup) :
    ∀ i ∈ inputs, ∃ t ∈ (plan_targets m inputs).targets, t.shade_id = i.shade_id := by
  intro i hi
  simp only [plan_targets]
  by_cases hact : (inputs.filter fun i => decide (i.direction ≠ 0)).isEmpty = true
  · rw [if_pos hact]
    exact ⟨⟨i.shade_id, i.position, false, 0⟩,
      List.mem_map_of_mem (fun i => (⟨i.shade_id, i.position, false, 0⟩ : ShadeStopTarget)) hi,
      rfl⟩
  · rw [if_neg hact]
    by_cases hd : i.direction = 0
    · refine ⟨⟨i.shade_id, i.position, false, 0⟩, List.mem_append_right _ ?_, rfl⟩
      refine List.mem_map_of_mem _ (List.mem_filter.mpr ⟨hi, ?_⟩)
      refine List.elem_iff.mpr (List.mem_filter.mpr ⟨?_, ?_⟩)
      · exact List.mem_map_of_mem _ (List.mem_filter.mpr ⟨hi, by simp [hd]⟩)
      · simp only [Bool.not_eq_true']
        rw [Bool.eq_false_iff]
        intro hcont
        rcases List.mem_map.mp (List.elem_iff.mp hcont) with ⟨t, htmem, hts⟩
        rcases List.mem_map.mp htmem with ⟨p, hp, htp⟩
        rcases List.mem_map.mp hp with ⟨j, hj, hpj⟩
        have hjdir : j.direction ≠ 0 := by
          have := (List.mem_filter.mp hj).2
          simpa using this
        have hjid : j.shade_id = i.shade_id := by
          rw [← hts, ← htp, ← hpj]
          exact (plannedTarget_shade_id _ _ _ _).symm
        have hij : j = i :=
          List.inj_on_of_nodup_map hnd (List.mem_of_mem_filter hj) hi hjid
        exact hjdir (hij ▸ hd)
    · refine ⟨_, List.mem_append_left _ (List.mem_map_of_mem _
        (List.mem_map_of_mem _ (List.mem_filter.mpr ⟨hi, by simp [hd]⟩))), ?_⟩
      exact plannedTarget_shade_id _ _ _ _


/-- The property claimed for `plan_targets` (C1): targets never move a
shade against its commanded direction, and stationary inputs come back at
exactly their current position. -/
def noBacktrackClaim (m : ℚ) (inputs : List ShadeStopInput) : Prop :=
  ∀ i ∈ inputs, ∀ t ∈ (plan_targets m inputs).targets, t.shade_id = i.shade_id →
    (0 < i.direction → i.position ≤ t.position) ∧
    (i.direction < 0 → t.position ≤ i.position) ∧
    (i.direction = 0 → t.position = i.position)

/-- **C1** (amended) — `noBacktrackClaim` holds for every input list whose
shade ids are pairwise distinct. -/
theorem c1_no_backtrack (m : ℚ) (inputs : List ShadeStopInput)
    (hnd : (inputs.map (fun i => i.shade_id)).Nodup) :
    noBacktrackClaim m inputs := by
  intro i hi t ht hts
  rcases plan_targets_targets_mem m inputs hnd t ht with ⟨j, hj, htj, hcase⟩
  have hij : j = i := List.inj_on_of_nodup_map hnd hj hi (htj ▸ hts)
  subst hij
  rcases hcase with ⟨hdir, gd, gc, rfl⟩ | ⟨hdir, rfl⟩
  · exact ⟨fun h => (plannedTarget_no_backtrack gd gc j _).1 h,
      fun h => (plannedTarget_no_backtrack gd gc j _).2 h,
      fun h0 => absurd h0 hdir⟩
  · exact ⟨fun _ => le_rfl, fun _ => le_rfl, fun _ => rfl⟩

/-- Counterexample for **C1** as stated (over *every* list): when a
stationary input shares its shade id with a moving input, the stationary
input does not get its current position back — the only target for that id
is the moving shade's, so the direction-0 clause fails. -/
theorem c1_no_backtrack_counterexample :
    ¬ noBacktrackClaim (1/4)
      [⟨"a", 1/2, 0, 1, none, 0, 1, 0, 1, 0, 1, 0, 1, 0, false⟩,
       ⟨"a", 1/5, 0, 0, none, 0, 1, 0, 1, 0, 1, 0, 1, 0, false⟩] := by
  intro h
  have htargets : (plan_targets (1/4)
      [⟨"a", 1/2, 0, 1, none, 0, 1, 0, 1, 0, 1, 0, 1, 0, false⟩,
       ⟨"a", 1/5, 0, 0, none, 0, 1, 0, 1, 0, 1, 0, 1, 0, false⟩]).targets
      = [⟨"a", 1/2, false, 0⟩] := by
    norm_num [plan_targets, plannedForward, plannedTarget, estimate_velocity, steady_speed,
      forward_distance, safety_scale, median, pySorted, sortInsert, List.filter,
      List.filterMap]
  have h2 := h ⟨"a", 1/5, 0, 0, none, 0, 1, 0, 1, 0, 1, 0, 1, 0, false⟩
    (by simp) ⟨"a", 1/2, false, 0⟩ (by rw [htargets]; exact List.mem_singleton_self _) rfl
  have h3 := h2.2.2 rfl
  norm_num at h3

/-- Witness for `c1_no_backtrack`: a two-shade list with distinct ids. -/
theorem c1_no_backtrack_witness :
    noBacktrackClaim (1/4)
      [⟨"a", 1/2, 3/10, 1, some (1/5), 1/5, 1, 1, 2/5, 0, 9/10, 0, 1, 0, true⟩,
       ⟨"b", 1/4, 0, 0, none, 1/5, 1, 1, 2/5, 0, 9/10, 0, 1, 0, true⟩] :=
  c1_no_backtrack (1/4)
    [⟨"a", 1/2, 3/10, 1, some (1/5), 1/5, 1, 1, 2/5, 0, 9/10, 0, 1, 0, true⟩,
     ⟨"b", 1/4, 0, 0, none, 1/5, 1, 1, 2/5, 0, 9/10, 0, 1, 0, true⟩]
    (by simp)

theorem plannedForward_safe_zero (m : ℚ) (i : ShadeStopInput)
    (hs : i.safe_when_uncertain = true) (hc : i.confidence < 1/20) :
    (plannedForward m i).2 = 0 := by
  simp only [plannedForward]
  rw [if_pos ⟨hs, hc⟩]

theorem plannedTarget_zero_forward_position (gd gc : ℚ) (i : ShadeStopInput)
    (hb : i.baseline = none) (h1 : i.min_position ≤ i.position)
    (h2 : i.position ≤ i.max_position) :
    (plannedTarget gd gc i 0).position = i.position := by
  simp only [plannedTarget, hb, mul_zero, add_zero]
  rw [min_eq_right h2, max_eq_right h1]
  split_ifs <;> rfl

/-- The property claimed for `plan_targets` (C2): a moving, uncertain,
`safe_when_uncertain` shade gets coast distance 0 and a target equal to its
clamped current position. -/
def immediateStopClaim (m : ℚ) (inputs : List ShadeStopInput) : Prop :=
  ∀ i ∈ inputs, i.direction ≠ 0 → i.safe_when_uncertain = true →
    i.confidence < 1/20 →
    ∀ t ∈ (plan_targets m inputs).targets, t.shade_id = i.shade_id →
      t.distance = 0 ∧ t.position = max i.min_position (min i.max_position i.position)

/-- **C2** (amended) — For distinct shade ids, a moving shade with
`safe_when_uncertain` and confidence < 0.05 always gets coast distance 0;
its target equals its current position when it has no group baseline and
its position lies within `[min_position, max_position]` (with a baseline
the group-consistent target may still carry it forward). -/
theorem c2_safety_fallback (m : ℚ) (inputs : List ShadeStopInput)
    (hnd : (inputs.map (fun i => i.shade_id)).Nodup) :
    ∀ i ∈ inputs, i.direction ≠ 0 → i.safe_when_uncertain = true →
      i.confidence < 1/20 →
      ∀ t ∈ (plan_targets m inputs).targets, t.shade_id = i.shade_id →
        t.distance = 0 ∧
        (i.baseline = none → i.min_position ≤ i.position →
          i.position ≤ i.max_position → t.position = i.position) := by
  intro i hi hdir hs hc t ht hts
  rcases plan_targets_targets_mem m inputs hnd t ht with ⟨j, hj, htj, hcase⟩
  have hij : j = i := List.inj_on_of_nodup_map hnd hj hi (htj ▸ hts)
  subst hij
  rcases hcase with ⟨_, gd, gc, rfl⟩ | ⟨hdir0, _⟩
  · constructor
    · rw [plannedTarget_distance]
      exact plannedForward_safe_zero m j hs hc
    · intro hb h1 h2
      rw [plannedForward_safe_zero m j hs hc]
      exact plannedTarget_zero_forward_position gd gc j hb h1 h2
  · exact absurd hdir0 hdir

/-- Counterexample for **C2** as stated: an uncertain shade with a group
baseline has its coast distance forced to 0, but the group-consistent
target (driven by a confident peer) still carries it forward — its planned
position is 1, not its clamped current position 1/2. -/
theorem c2_safety_fallback_counterexample :
    ¬ immediateStopClaim (1/4)
      [⟨"a", 1/2, 1, 1, some (2/5), 1, 1, 1, 1, 0, 0, 0, 1, 0, true⟩,
       ⟨"b", 1/2, 1, 1, some (2/5), 1, 1, 1, 1, 0, 1, 0, 1, 0, true⟩] := by
  intro h
  have htargets : (plan_targets (1/4)
      [⟨"a", 1/2, 1, 1, some (2/5), 1, 1, 1, 1, 0, 0, 0, 1, 0, true⟩,
       ⟨"b", 1/2, 1, 1, some (2/5), 1, 1, 1, 1, 0, 1, 0, 1, 0, true⟩]).targets
      = [⟨"a", 1, true, 0⟩, ⟨"b", 1, true, 3/2⟩] := by
    norm_num [plan_targets, plannedForward, plannedTarget, estimate_velocity, steady_speed,
      forward_distance, safety_scale, median, pySorted, sortInsert, List.filter,
      List.filterMap]
  have h2 := h ⟨"a", 1/2, 1, 1, some (2/5), 1, 1, 1, 1, 0, 0, 0, 1, 0, true⟩
    (by simp) (by norm_num) rfl (by norm_num) ⟨"a", 1, true, 0⟩
    (by rw [htargets]; simp) rfl
  have h3 := h2.2
  norm_num at h3

/-- Witness for `c2_safety_fallback`: a single uncertain moving shade with
no baseline stops exactly at its current position with distance 0. -/
theorem c2_safety_fallback_witness :
    (plan_targets (1/4)
        [⟨"a", 1/2, 1, 1, none, 1, 1, 1, 1, 0, 0, 0, 1, 0, true⟩]).targets
      = [⟨"a", 1/2, false, 0⟩] ∧
    (⟨"a", 1/2, false, 0⟩ : ShadeStopTarget).distance = 0 ∧
    (⟨"a", 1/2, false, 0⟩ : ShadeStopTarget).position = 1/2 := by
  have heval : (plan_targets (1/4)
      [⟨"a", 1/2, 1, 1, none, 1, 1, 1, 1, 0, 0, 0, 1, 0, true⟩]).targets
      = [⟨"a", 1/2, false, 0⟩] := by
    norm_num [plan_targets, plannedForward, plannedTarget, estimate_velocity, steady_speed,
      forward_distance, safety_scale, median, pySorted, sortInsert, List.filter,
      List.filterMap]
  have h := c2_safety_fallback (1/4)
    [⟨"a", 1/2, 1, 1, none, 1, 1, 1, 1, 0, 0, 0, 1, 0, true⟩] (by simp)
    ⟨"a", 1/2, 1, 1, none, 1, 1, 1, 1, 0, 0, 0, 1, 0, true⟩ (by simp)
    (by norm_num) rfl (by norm_num) ⟨"a", 1/2, false, 0⟩
    (by rw [heval]; exact List.mem_singleton_self _) rfl
  exact ⟨heval, h.1, h.2 rfl (by norm_num) (by norm_num)⟩

/-- **C9** — For inputs with pairwise distinct shade ids, `plan_targets`
returns exactly one target per input, and every input's shade id appears
among the returned targets. -/
theorem c9_one_target_per_input (m : ℚ) (inputs : List ShadeStopInput)
    (hnd : (inputs.map (fun i => i.shade_id)).Nodup) :
    (plan_targets m inputs).targets.length = inputs.length ∧
    ∀ i ∈ inputs, ∃ t ∈ (plan_targets m inputs).targets, t.shade_id = i.shade_id := by
  refine ⟨?_, plan_targets_targets_complete m inputs hnd⟩
  simp only [plan_targets]
  by_cases hact : (inputs.filter fun i => decide (i.direction ≠ 0)).isEmpty = true
  · rw [if_pos hact]
    simp only [List.length_map]
  · rw [if_neg hact]
    have hids : ∀ gd gc : ℚ,
        (List.map (fun t => t.shade_id)
          (List.map (fun p => plannedTarget gd gc p.1 p.2.2)
            (List.map (fun item => (item, plannedForward m item))
              (inputs.filter fun i => decide (i.direction ≠ 0)))))
        = (inputs.filter fun i => decide (i.direction ≠ 0)).map (fun i => i.shade_id) := by
      intro gd gc
      rw [List.map_map, List.map_map]
      rfl
    rw [hids]
    have hrem : ∀ i ∈ inputs,
        ((((inputs.filter fun j => decide (j.direction = 0)).map (fun j => j.shade_id)).filter
          (fun s => !((inputs.filter fun j => decide (j.direction ≠ 0)).map
            (fun j => j.shade_id)).contains s)).contains i.shade_id)
        = decide (i.direction = 0) := by
      intro i hi
      by_cases hd : i.direction = 0
      · rw [hd]
        simp only [decide_eq_true_eq, decide_True]
        refine List.elem_iff.mpr (List.mem_filter.mpr ⟨?_, ?_⟩)
        · exact List.mem_map_of_mem _ (List.mem_filter.mpr ⟨hi, by simp [hd]⟩)
        · simp only [Bool.not_eq_true']
          rw [Bool.eq_false_iff]
          intro hcont
          rcases List.mem_map.mp (List.elem_iff.mp hcont) with ⟨j, hj, hji⟩
          have hjdir : j.direction ≠ 0 := by
            have := (List.mem_filter.mp hj).2
            simpa using this
          have hij : j = i :=
            List.inj_on_of_nodup_map hnd (List.mem_of_mem_filter hj) hi hji
          exact hjdir (hij ▸ hd)
      · have h1 : decide (i.direction = 0) = false := by simp [hd]
        rw [h1, Bool.eq_false_iff]
        intro hcont
        rcases List.mem_map.mp (List.mem_of_mem_filter (List.elem_iff.mp hcont))
          with ⟨j, hj, hji⟩
        have hj0 : j.direction = 0 := by
          have := (List.mem_filter.mp hj).2
          simpa using this
        have hij : j = i :=
          List.inj_on_of_nodup_map hnd (List.mem_of_mem_filter hj) hi hji
        exact hd (hij ▸ hj0)
    rw [List.length_append, List.length_map, List.length_map, List.length_map,
      List.filter_congr hrem]
    have hsplit := length_filter_add_length_filter_not inputs
      (fun i => decide (i.direction ≠ 0))
    have hnot : (fun i : ShadeStopInput => !decide (i.direction ≠ 0))
        = fun i => decide (i.direction = 0) := by
      funext i
      rcases eq_or_ne i.direction 0 with h | h <;> simp [h]
    rw [hnot] at hsplit
    exact hsplit

/-- Witness for `c9_one_target_per_input`: one moving and one stationary
shade produce exactly two targets covering both ids. -/
theorem c9_one_target_per_input_witness :
    (plan_targets (1/4)
      [⟨"a", 1/2, 3/10, 1, some (1/5), 1/5, 1, 1, 2/5, 0, 9/10, 0, 1, 0, true⟩,
       ⟨"b", 1/4, 0, 0, none, 1/5, 1, 1, 2/5, 0, 9/10, 0, 1, 0, true⟩]).targets.length = 2 ∧
    ∀ i ∈ [(⟨"a", 1/2, 3/10, 1, some (1/5), 1/5, 1, 1, 2/5, 0, 9/10, 0, 1, 0, true⟩ : ShadeStopInput),
       ⟨"b", 1/4, 0, 0, none, 1/5, 1, 1, 2/5, 0, 9/10, 0, 1, 0, true⟩],
      ∃ t ∈ (plan_targets (1/4)
        [⟨"a", 1/2, 3/10, 1, some (1/5), 1/5, 1, 1, 2/5, 0, 9/10, 0, 1, 0, true⟩,
         ⟨"b", 1/4, 0, 0, none, 1/5, 1, 1, 2/5, 0, 9/10, 0, 1, 0, true⟩]).targets,
        t.shade_id = i.shade_id :=
  c9_one_target_per_input (1/4)
    [⟨"a", 1/2, 3/10, 1, some (1/5), 1/5, 1, 1, 2/5, 0, 9/10, 0, 1, 0, true⟩,
     ⟨"b", 1/4, 0, 0, none, 1/5, 1, 1, 2/5, 0, 9/10, 0, 1, 0, true⟩]
    (by simp)

theorem pyRound_le_of_le {α : Type*} [LinearOrderedField α] [FloorRing α]
    (x : α) (k : ℤ) (h : x ≤ (k : α)) : pyRound x ≤ k := by
  have h1 : (pyRound x : α) ≤ (k : α) + 1 / 2 := (pyRound_le x).trans (by linarith)
  have h2 : (pyRound x : α) < ((k + 1 : ℤ) : α) := by push_cast; linarith
  exact Int.lt_add_one_iff.mp (Int.cast_lt.mp h2)

theorem le_pyRound_of_le {α : Type*} [LinearOrderedField α] [FloorRing α]
    (k : ℤ) (x : α) (h : (k : α) ≤ x) : k ≤ pyRound x := by
  have h1 : (k : α) - 1 / 2 ≤ (pyRound x : α) := by
    have := le_pyRound x
    linarith
  have h2 : ((k - 1 : ℤ) : α) < (pyRound x : α) := by push_cast; linarith
  have := Int.cast_lt.mp h2
  omega

/-- **C4** (amended) — After every `update_speed` the confidence equals
`round(clamp(1 - rmse/0.15, 0, 1) * clamp(sample_count/20, 0, 1), 6)`
computed from the updated rmse and count; after the first sample it lies in
`[0, 0.05]` (`count` term `1/20`) but need not be 0; and holding rmse fixed
the recomputed confidence is nondecreasing in `sample_count` and at most 1. -/
theorem c4_confidence_formula (s : ShadeLearningState ℝ) (position velocity : ℝ) :
    ((update_speed s position velocity).confidence
      = round6 (pyClamp (1 - (update_speed s position velocity).rmse / 0.15) 0 1
          * pyClamp (((update_speed s position velocity).sample_count : ℝ) / 20) 0 1)) ∧
    (s.sample_count = 0 →
      0 ≤ (update_speed s position velocity).confidence ∧
      (update_speed s position velocity).confidence ≤ 1 / 20) ∧
    (∀ (r : ℝ) (n k : ℤ), n ≤ k → recomputeConfidence r n ≤ recomputeConfidence r k) ∧
    (∀ (r : ℝ) (n : ℤ), recomputeConfidence r n ≤ 1) := by
  have ht1_nonneg : ∀ r : ℝ, 0 ≤ pyClamp (1 - r / 0.15) 0 1 :=
    fun r => le_pyClamp _ 0 1 zero_le_one
  have ht1_le : ∀ r : ℝ, pyClamp (1 - r / 0.15) 0 1 ≤ 1 :=
    fun r => pyClamp_le _ 0 1 zero_le_one
  have ht2_nonneg : ∀ x : ℝ, 0 ≤ pyClamp x 0 1 := fun x => le_pyClamp _ 0 1 zero_le_one
  have ht2_le : ∀ x : ℝ, pyClamp x 0 1 ≤ 1 := fun x => pyClamp_le _ 0 1 zero_le_one
  refine ⟨rfl, ?_, ?_, ?_⟩
  · intro h0
    have hcnt : (update_speed s position velocity).sample_count = 1 := by
      simp [update_speed, h0]
    have hconf : (update_speed s position velocity).confidence
        = round6 (pyClamp (1 - (update_speed s position velocity).rmse / 0.15) 0 1
          * pyClamp (((update_speed s position velocity).sample_count : ℝ) / 20) 0 1) := rfl
    rw [hconf, hcnt]
    have ht2 : pyClamp (((1 : ℤ) : ℝ) / 20) 0 1 = 1 / 20 := by
      unfold pyClamp
      norm_num
    rw [ht2]
    constructor
    · unfold round6
      have h1 : (0 : ℤ) ≤ pyRound ((pyClamp (1 - (update_speed s position velocity).rmse / 0.15) 0 1
          * (1 / 20)) * 1000000) := by
        apply le_pyRound_of_le
        push_cast
        have := ht1_nonneg (update_speed s position velocity).rmse
        nlinarith
      have h2 : ((0 : ℤ) : ℝ) ≤ (pyRound ((pyClamp (1 - (update_speed s position velocity).rmse / 0.15) 0 1
          * (1 / 20)) * 1000000) : ℝ) := Int.cast_le.mpr h1
      push_cast at h2
      linarith
    · unfold round6
      have h1 : pyRound ((pyClamp (1 - (update_speed s position velocity).rmse / 0.15) 0 1
          * (1 / 20)) * 1000000) ≤ (50000 : ℤ) := by
        apply pyRound_le_of_le
        push_cast
        have := ht1_le (update_speed s position velocity).rmse
        have := ht1_nonneg (update_speed s position velocity).rmse
        nlinarith
      have h2 : ((pyRound ((pyClamp (1 - (update_speed s position velocity).rmse / 0.15) 0 1
          * (1 / 20)) * 1000000) : ℤ) : ℝ) ≤ ((50000 : ℤ) : ℝ) := Int.cast_le.mpr h1
      push_cast at h2
      linarith
  · intro r n k hnk
    unfold recomputeConfidence
    apply round6_mono
    apply mul_le_mul_of_nonneg_left _ (ht1_nonneg r)
    apply pyClamp_mono 0 1 zero_le_one
    have : ((n : ℝ)) ≤ (k : ℝ) := Int.cast_le.mpr hnk
    linarith
  · intro r n
    unfold recomputeConfidence
    have hle : pyClamp (1 - r / 0.15) 0 1 * pyClamp ((n : ℝ) / 20) 0 1 ≤ 1 := by
      have := ht1_nonneg r
      have := ht1_le r
      have := ht2_nonneg ((n : ℝ) / 20)
      have := ht2_le ((n : ℝ) / 20)
      nlinarith
    unfold round6
    have h1 : pyRound ((pyClamp (1 - r / 0.15) 0 1 * pyClamp ((n : ℝ) / 20) 0 1)
        * 1000000) ≤ (1000000 : ℤ) := by
      apply pyRound_le_of_le
      push_cast
      nlinarith
    have h2 : ((pyRound ((pyClamp (1 - r / 0.15) 0 1 * pyClamp ((n : ℝ) / 20) 0 1)
        * 1000000) : ℤ) : ℝ) ≤ ((1000000 : ℤ) : ℝ) := Int.cast_le.mpr h1
    push_cast at h2
    linarith

/-- Counterexample for **C4** as stated: from the default learning state, a
single `update_speed(position = 0, velocity = 0.4)` sample leaves a zero
residual, so the confidence after one sample is `round6(1 * 1/20) = 0.05`,
not 0. -/
theorem c4_confidence_counterexample :
    (update_speed (create_default (2/5) 0 (3/20) (49/50)) 0 (2/5)).sample_count = 1 ∧
    (update_speed (create_default (2/5) 0 (3/20) (49/50)) 0 (2/5)).confidence = 1/20 ∧
    (1/20 : ℝ) ≠ 0 := by
  refine ⟨by simp [update_speed, create_default], ?_, by norm_num⟩
  simp only [update_speed, create_default]
  norm_num [rlsUpdate, rlsPredict, recomputeConfidence, round6, pyClamp, pyRound]

/-- Witness for `c4_confidence_formula`, at the default learning state. -/
theorem c4_confidence_formula_witness :
    ((update_speed (create_default (2/5) 0 (3/20) (49/50)) 0 (2/5)).confidence
      = round6 (pyClamp (1 - (update_speed (create_default (2/5) 0 (3/20) (49/50)) 0 (2/5)).rmse / 0.15) 0 1
          * pyClamp (((update_speed (create_default (2/5) 0 (3/20) (49/50)) 0 (2/5)).sample_count : ℝ) / 20) 0 1)) ∧
    (0 ≤ (update_speed (create_default (2/5) 0 (3/20) (49/50)) 0 (2/5)).confidence ∧
      (update_speed (create_default (2/5) 0 (3/20) (49/50)) 0 (2/5)).confidence ≤ 1 / 20) ∧
    (∀ (r : ℝ) (n k : ℤ), n ≤ k → recomputeConfidence r n ≤ recomputeConfidence r k) ∧
    (∀ (r : ℝ) (n : ℤ), recomputeConfidence r n ≤ 1) := by
  have h := c4_confidence_formula (create_default (2/5) 0 (3/20) (49/50)) 0 (2/5)
  exact ⟨h.1, h.2.1 rfl, h.2.2.1, h.2.2.2⟩

/-! ### Round-trip analysis for the calibration scans (C3)

The scans of `pct_to_raw` / `raw_to_pct` walk the list of consecutive
anchor pairs.  `SegsOK` captures the segment facts available for a
validated, non-degenerate table: percents strictly increase and each
segment's raw span is at least its percent span, consecutive segments
sharing their boundary anchor. -/

def SegsOK (segs : List (Anchor × Anchor)) : Prop :=
  (∀ s ∈ segs, s.1.1 < s.2.1 ∧ s.2.1 - s.1.1 ≤ s.2.2 - s.1.2) ∧
  List.Chain' (fun s t => s.2 = t.1) segs

theorem SegsOK.tail {s : Anchor × Anchor} {rest : List (Anchor × Anchor)}
    (h : SegsOK (s :: rest)) : SegsOK rest :=
  ⟨fun t ht => h.1 t (List.mem_cons_of_mem s ht), h.2.tail⟩

theorem segsOK_head {s : Anchor × Anchor} {rest : List (Anchor × Anchor)}
    (h : SegsOK (s :: rest)) :
    s.1.1 < s.2.1 ∧ s.2.1 - s.1.1 ≤ s.2.2 - s.1.2 ∧ s.1.2 < s.2.2 := by
  have hm := h.1 s (List.mem_cons_self s rest)
  exact ⟨hm.1, hm.2, by omega⟩

theorem segsLast_bound :
    ∀ (segs : List (Anchor × Anchor)) (L : Anchor), SegsOK segs →
      segs.getLast?.map Prod.snd = some L →
      ∀ s ∈ segs, s.2.1 ≤ L.1 ∧ s.2.2 ≤ L.2 := by
  intro segs
  induction segs with
  | nil => intro L _ hL s hs; simp at hs
  | cons s rest ih =>
    intro L hOK hL t ht
    cases rest with
    | nil =>
      have hsL : s.2 = L := by simpa using hL
      rcases List.mem_singleton.mp ht with rfl
      rw [hsL]
      exact ⟨le_rfl, le_rfl⟩
    | cons t2 r2 =>
      rw [List.getLast?_cons_cons] at hL
      rcases List.mem_cons.mp ht with rfl | htr
      · have hlink : t.2 = t2.1 := (List.chain'_cons.mp hOK.2).1
        have ht2 := ih L hOK.tail hL t2 (List.mem_cons_self _ _)
        have hseg := segsOK_head hOK.tail
        constructor
        · rw [hlink]; omega
        · rw [hlink]; omega
      · exact ih L hOK.tail hL t htr

theorem rawScan_last :
    ∀ (segs : List (Anchor × Anchor)) (L : Anchor) (dY : ℚ), SegsOK segs →
      segs.getLast?.map Prod.snd = some L →
      rawScan L.2 segs dY = (L.1 : ℚ) := by
  intro segs
  induction segs with
  | nil => intro L dY _ hL; simp at hL
  | cons s rest ih =>
    intro L dY hOK hL
    rcases s with ⟨u, v⟩
    have hs := segsOK_head hOK
    simp only at hs
    cases rest with
    | nil =>
      have hsL : v = L := by simpa using hL
      subst hsL
      simp only [rawScan]
      rw [if_neg (lt_irrefl _), if_neg (by omega), if_neg (by omega)]
      have hne : ((v.2 : ℚ) - (u.2 : ℚ)) ≠ 0 := by
        have h1 : u.2 < v.2 := hs.2.2
        have h2 : (u.2 : ℚ) < (v.2 : ℚ) := by exact_mod_cast h1
        linarith
      rw [div_self hne]
      ring
    | cons t2 r2 =>
      rw [List.getLast?_cons_cons] at hL
      have hlink : v = t2.1 := (List.chain'_cons.mp hOK.2).1
      have hseg2 := segsOK_head hOK.tail
      have hbound := segsLast_bound (t2 :: r2) L hOK.tail hL t2 (List.mem_cons_self _ _)
      have hlt : v.2 < L.2 := by
        have : t2.1.2 < t2.2.2 := hseg2.2.2
        rw [hlink]
        omega
      simp only [rawScan]
      rw [if_pos hlt]
      exact ih L dY hOK.tail hL

theorem zip_tail_chain :
    ∀ l : List Anchor, List.Chain' (fun s t : Anchor × Anchor => s.2 = t.1) (l.zip l.tail) := by
  intro l
  induction l with
  | nil => simp
  | cons a l ih =>
    cases l with
    | nil => simp
    | cons b t =>
      show List.Chain' _ ((a, b) :: ((b :: t).zip t))
      rw [List.chain'_cons']
      refine ⟨?_, ih⟩
      intro y hy
      cases t with
      | nil => simp at hy
      | cons c t' =>
        simp only [List.zip_cons_cons, List.head?_cons, Option.mem_def,
          Option.some_inj] at hy
        rw [← hy]

theorem zip_tail_getLast :
    ∀ (t : List Anchor) (a b : Anchor),
      ((a :: b :: t).zip (b :: t)).getLast?.map Prod.snd
        = some ((a :: b :: t).getLastD (0, 0)) := by
  intro t
  induction t with
  | nil => intro a b; rfl
  | cons c t' ih =>
    intro a b
    show ((a, b) :: ((b :: c :: t').zip (c :: t'))).getLast?.map Prod.snd = _
    have hne : ((b :: c :: t').zip (c :: t')) = (b, c) :: ((c :: t').zip t') := rfl
    rw [hne, List.getLast?_cons_cons, ← hne, ih b c]
    rfl

theorem getLastD_mem_cons :
    ∀ (l : List Anchor) (a : Anchor), (a :: l).getLastD (0, 0) ∈ a :: l := by
  intro l
  induction l with
  | nil => intro a; simp
  | cons b t ih =>
    intro a
    have h1 : (a :: b :: t).getLastD (0, 0) = (b :: t).getLastD (0, 0) := rfl
    rw [h1]
    exact List.mem_cons_of_mem a (ih b)

/-- Core of the round-trip bound: over a chain of non-degenerate segments,
the forward scan lands strictly inside the raw range, expands distances
(slope ≥ 1), and any integer within 1/2 of it maps back within 1/2 of the
original percent under the backward scan. -/
theorem calRoundTripCore :
    ∀ (segs : List (Anchor × Anchor)) (F L : Anchor) (dX dY : ℚ) (pv : ℤ),
      SegsOK segs →
      segs.head?.map Prod.fst = some F →
      segs.getLast?.map Prod.snd = some L →
      F.1 < pv → pv ≤ L.1 →
      ((F.2 : ℚ) < pctScan pv segs dX ∧ pctScan pv segs dX ≤ (L.2 : ℚ)) ∧
      ((pv : ℚ) - (F.1 : ℚ) ≤ pctScan pv segs dX - (F.2 : ℚ)) ∧
      (∀ r : ℤ, pctScan pv segs dX - 1/2 ≤ (r : ℚ) →
        (r : ℚ) ≤ pctScan pv segs dX + 1/2 →
        (F.2 ≤ r ∧ r ≤ L.2) ∧ |rawScan r segs dY - (pv : ℚ)| ≤ 1/2) := by
  intro segs
  induction segs with
  | nil => intro F L dX dY pv _ hF _ _ _; simp at hF
  | cons s rest ih =>
    intro F L dX dY pv hOK hF hL hpF hpL
    rcases s with ⟨u, v⟩
    have hFu : u = F := by simpa using hF
    subst hFu
    have hs := segsOK_head hOK
    simp only at hs
    have hvL := segsLast_bound ((u, v) :: rest) L hOK hL (u, v)
      (List.mem_cons_self _ _)
    simp only at hvL
    have hQuv1 : (u.1 : ℚ) < (v.1 : ℚ) := by exact_mod_cast hs.1
    have hQspan : (v.1 : ℚ) - u.1 ≤ (v.2 : ℚ) - u.2 := by
      have := hs.2.1
      have h2 : ((v.1 - u.1 : ℤ) : ℚ) ≤ ((v.2 - u.2 : ℤ) : ℚ) := by exact_mod_cast this
      push_cast at h2
      linarith
    have hdp : (0 : ℚ) < (v.1 : ℚ) - u.1 := by linarith
    have hdr : (0 : ℚ) < (v.2 : ℚ) - u.2 := lt_of_lt_of_le hdp hQspan
    have hP1 : (u.1 : ℚ) + 1 ≤ (pv : ℚ) := by
      have : u.1 + 1 ≤ pv := by omega
      exact_mod_cast this
    by_cases hpv : pv ≤ v.1
    · -- the scan stops at the head segment
      have hQP2 : (pv : ℚ) ≤ (v.1 : ℚ) := by exact_mod_cast hpv
      have hx : pctScan pv ((u, v) :: rest) dX
          = (u.2 : ℚ) + ((v.2 : ℚ) - u.2) * (((pv : ℚ) - u.1) / ((v.1 : ℚ) - u.1)) := by
        simp only [pctScan]
        rw [if_pos hpv, if_neg (by omega)]
      have hratio_pos : 0 < ((pv : ℚ) - u.1) / ((v.1 : ℚ) - u.1) :=
        div_pos (by linarith) hdp
      have hratio_le : ((pv : ℚ) - u.1) / ((v.1 : ℚ) - u.1) ≤ 1 :=
        (div_le_one hdp).mpr (by linarith)
      have hXu : (u.2 : ℚ) < pctScan pv ((u, v) :: rest) dX := by
        rw [hx]
        nlinarith [mul_pos hdr hratio_pos]
      have hXv : pctScan pv ((u, v) :: rest) dX ≤ (v.2 : ℚ) := by
        rw [hx]
        nlinarith [mul_le_mul_of_nonneg_left hratio_le (le_of_lt hdr)]
      have hslope : (pv : ℚ) - (u.1 : ℚ) ≤ pctScan pv ((u, v) :: rest) dX - (u.2 : ℚ) := by
        rw [hx]
        have h1 := mul_le_mul_of_nonneg_right hQspan (le_of_lt hratio_pos)
        have h2 : ((v.1 : ℚ) - u.1) * (((pv : ℚ) - u.1) / ((v.1 : ℚ) - u.1))
            = (pv : ℚ) - u.1 := mul_div_cancel₀ _ (ne_of_gt hdp)
        nlinarith
      refine ⟨⟨hXu, le_trans hXv (by exact_mod_cast hvL.2)⟩, hslope, ?_⟩
      intro r hr1 hr2
      have hru2 : u.2 ≤ r := by
        have h1 : ((u.2 - 1 : ℤ) : ℚ) < (r : ℚ) := by push_cast; linarith
        have := Int.cast_lt.mp h1
        omega
      have hrv2 : r ≤ v.2 := by
        have h1 : (r : ℚ) < ((v.2 + 1 : ℤ) : ℚ) := by push_cast; linarith
        have := Int.cast_lt.mp h1
        omega
      refine ⟨⟨hru2, by omega⟩, ?_⟩
      simp only [rawScan]
      rw [if_neg (by omega), if_neg (by omega)]
      by_cases hru : r ≤ u.2
      · rw [if_pos hru]
        have hr_eq : r = u.2 := by omega
        have hXle : pctScan pv ((u, v) :: rest) dX ≤ (u.2 : ℚ) + 1/2 := by
          have : ((r : ℤ) : ℚ) = (u.2 : ℚ) := by exact_mod_cast hr_eq
          linarith
        rw [abs_le]
        constructor
        · linarith
        · linarith
      · rw [if_neg hru]
        have hinv : ((v.1 : ℚ) - u.1) * ((pctScan pv ((u, v) :: rest) dX - (u.2 : ℚ))
            / ((v.2 : ℚ) - u.2)) = (pv : ℚ) - u.1 := by
          rw [hx]
          field_simp
          ring
        have hyP : (u.1 : ℚ) + ((v.1 : ℚ) - u.1) * (((r : ℚ) - u.2) / ((v.2 : ℚ) - u.2))
            - (pv : ℚ)
            = (((v.1 : ℚ) - u.1) / ((v.2 : ℚ) - u.2))
              * ((r : ℚ) - pctScan pv ((u, v) :: rest) dX) := by
          have h2 : (pv : ℚ) = (u.1 : ℚ) + ((v.1 : ℚ) - u.1)
              * ((pctScan pv ((u, v) :: rest) dX - (u.2 : ℚ)) / ((v.2 : ℚ) - u.2)) := by
            rw [hinv]; ring
          rw [h2]
          field_simp
          ring
        rw [hyP, abs_mul, abs_of_nonneg (le_of_lt (div_pos hdp hdr))]
        have habs : |(r : ℚ) - pctScan pv ((u, v) :: rest) dX| ≤ 1/2 :=
          abs_le.mpr ⟨by linarith, by linarith⟩
        have hdiv : ((v.1 : ℚ) - u.1) / ((v.2 : ℚ) - u.2) ≤ 1 :=
          (div_le_one hdr).mpr hQspan
        calc ((v.1 : ℚ) - u.1) / ((v.2 : ℚ) - u.2)
              * |(r : ℚ) - pctScan pv ((u, v) :: rest) dX|
            ≤ 1 * (1/2) := mul_le_mul hdiv habs (abs_nonneg _) one_pos.le
          _ = 1/2 := one_mul _
    · -- the scan skips the head segment
      cases rest with
      | nil =>
        exfalso
        have hvLeq : v = L := by simpa using hL
        rw [hvLeq] at hpv
        exact hpv hpL
      | cons t2 r2 =>
        have hlink : v = t2.1 := (List.chain'_cons.mp hOK.2).1
        have hF' : ((t2 :: r2).head?.map Prod.fst) = some v := by
          simp [hlink]
        have hL' : ((t2 :: r2).getLast?.map Prod.snd) = some L := by
          rw [← List.getLast?_cons_cons (a := (u, v))]
          exact hL
        have hIH := ih v L dX dY pv hOK.tail hF' hL' (by omega) hpL
        have hxeq : pctScan pv ((u, v) :: t2 :: r2) dX = pctScan pv (t2 :: r2) dX := by
          simp only [pctScan]
          rw [if_neg hpv]
        rw [hxeq]
        have hQv2 : (u.2 : ℚ) < (v.2 : ℚ) := by
          have : u.2 < v.2 := hs.2.2
          exact_mod_cast this
        have hQv1 : (v.1 : ℚ) < (pv : ℚ) := by
          have : v.1 < pv := by omega
          exact_mod_cast this
        refine ⟨⟨lt_trans hQv2 hIH.1.1, hIH.1.2⟩, ?_, ?_⟩
        · have := hIH.2.1
          linarith
        · intro r hr1 hr2
          have hr := hIH.2.2 r hr1 hr2
          refine ⟨⟨by omega, hr.1.2⟩, ?_⟩
          by_cases hvr : v.2 < r
          · simp only [rawScan]
            rw [if_pos hvr]
            exact hr.2
          · have hr_eq : r = v.2 := by
              have := hr.1.1
              omega
            simp only [rawScan]
            rw [if_neg hvr, if_neg (by omega), if_neg (by omega)]
            have hRv : ((r : ℤ) : ℚ) = (v.2 : ℚ) := by exact_mod_cast hr_eq
            rw [hRv, div_self (ne_of_gt hdr)]
            have hXvlb : (pv : ℚ) - (v.1 : ℚ) ≤ pctScan pv (t2 :: r2) dX - (v.2 : ℚ) :=
              hIH.2.1
            have hXub : pctScan pv (t2 :: r2) dX ≤ (v.2 : ℚ) + 1/2 := by
              have : pctScan pv (t2 :: r2) dX - 1/2 ≤ (r : ℚ) := hr1
              rw [hRv] at this
              linarith
            have hy : (u.1 : ℚ) + ((v.1 : ℚ) - u.1) * 1 = (v.1 : ℚ) := by ring
            rw [hy, abs_le]
            constructor
            · linarith
            · linarith

/-- Bridge for the round-trip theorem: for a chained segment list over
anchors `a :: b :: t` running from percent 0 to 100, the rounded forward
value stays inside the raw range and scanning it back lands within one
percent of the original. -/
theorem calKey (a b : Anchor) (t : List Anchor) (L : Anchor) (p' : ℤ)
    (hOK : SegsOK ((a :: b :: t).zip (b :: t)))
    (hL : ((a :: b :: t).zip (b :: t)).getLast?.map Prod.snd = some L)
    (ha1 : a.1 = 0) (hL1 : L.1 = 100)
    (ha2 : 0 ≤ a.2) (ha2' : a.2 ≤ 65535) (hL2 : 0 ≤ L.2) (hL2' : L.2 ≤ 65535)
    (hp0 : 0 ≤ p') (hp1 : p' ≤ 100) :
    (0 ≤ pyRound (if p' ≤ a.1 then (a.2 : ℚ) else if L.1 ≤ p' then (L.2 : ℚ)
        else pctScan p' ((a :: b :: t).zip (b :: t)) (L.2 : ℚ)) ∧
      pyRound (if p' ≤ a.1 then (a.2 : ℚ) else if L.1 ≤ p' then (L.2 : ℚ)
        else pctScan p' ((a :: b :: t).zip (b :: t)) (L.2 : ℚ)) ≤ 65535) ∧
    (pyRound (rawScan (pyRound (if p' ≤ a.1 then (a.2 : ℚ) else if L.1 ≤ p' then (L.2 : ℚ)
        else pctScan p' ((a :: b :: t).zip (b :: t)) (L.2 : ℚ)))
      ((a :: b :: t).zip (b :: t)) (L.1 : ℚ)) - p').natAbs ≤ 1 := by
  have hOK' : SegsOK (((a, b) : Anchor × Anchor) :: ((b :: t).zip t)) := hOK
  have hseg := segsOK_head hOK'
  simp only at hseg
  by_cases h1 : p' ≤ a.1
  · have hp'0 : p' = 0 := by omega
    rw [if_pos h1, pyRound_intCast]
    refine ⟨⟨ha2, ha2'⟩, ?_⟩
    have hred : ((a :: b :: t).zip (b :: t)) = (a, b) :: ((b :: t).zip t) := rfl
    rw [hred]
    simp only [rawScan]
    rw [if_neg (by omega), if_neg (by omega), if_pos (le_refl a.2), pyRound_intCast]
    omega
  · by_cases h2 : L.1 ≤ p'
    · rw [if_neg h1, if_pos h2, pyRound_intCast]
      refine ⟨⟨hL2, hL2'⟩, ?_⟩
      rw [rawScan_last _ L _ hOK hL, pyRound_intCast]
      omega
    · rw [if_neg h1, if_neg h2]
      have hcore := calRoundTripCore ((a :: b :: t).zip (b :: t)) a L (L.2 : ℚ) (L.1 : ℚ)
        p' hOK rfl hL (by omega) (by omega)
      have hr1 := le_pyRound (pctScan p' ((a :: b :: t).zip (b :: t)) (L.2 : ℚ))
      have hr2 := pyRound_le (pctScan p' ((a :: b :: t).zip (b :: t)) (L.2 : ℚ))
      have hc := hcore.2.2 (pyRound (pctScan p' ((a :: b :: t).zip (b :: t)) (L.2 : ℚ)))
        (by linarith) (by linarith)
      refine ⟨⟨by omega, by omega⟩, ?_⟩
      have hy := hc.2
      have hk1 := pyRound_le (rawScan (pyRound (pctScan p' ((a :: b :: t).zip (b :: t)) (L.2 : ℚ)))
        ((a :: b :: t).zip (b :: t)) (L.1 : ℚ))
      have hk2 := le_pyRound (rawScan (pyRound (pctScan p' ((a :: b :: t).zip (b :: t)) (L.2 : ℚ)))
        ((a :: b :: t).zip (b :: t)) (L.1 : ℚ))
      have habs : |((pyRound (rawScan (pyRound (pctScan p' ((a :: b :: t).zip (b :: t)) (L.2 : ℚ)))
          ((a :: b :: t).zip (b :: t)) (L.1 : ℚ)) - p' : ℤ) : ℚ)| ≤ 1 := by
        have h3 := abs_le.mp hy
        push_cast
        rw [abs_le]
        constructor <;> linarith [h3.1, h3.2]
      have h4 : ((pyRound (rawScan (pyRound (pctScan p' ((a :: b :: t).zip (b :: t)) (L.2 : ℚ)))
          ((a :: b :: t).zip (b :: t)) (L.1 : ℚ)) - p').natAbs : ℚ) ≤ 1 := by
        rw [Int.cast_natAbs]
        push_cast
        push_cast at habs
        exact habs
      exact_mod_cast h4

/-- **C3** (amended) — For every validated anchor table in which each
consecutive anchor pair's raw span is at least its percent span, and either
inversion flag, `raw_to_pct (pct_to_raw p) ` is within 1 of `p` for every
integer `p ∈ [0, 100]`. -/
theorem c3_round_trip_within_one (anchors : List Anchor) (inv : Bool) (p : ℤ)
    (hva : validAnchors anchors = true) (hnd : nondegAnchors anchors = true)
    (hp0 : 0 ≤ p) (hp1 : p ≤ 100) :
    ∃ k : ℤ, raw_to_pct (some (pct_to_raw p anchors inv)) anchors inv = some k ∧
      (k - p).natAbs ≤ 1 := by
  simp only [validAnchors, Bool.and_eq_true, decide_eq_true_eq, List.all_eq_true,
    CAL_ANCHOR_PC_MIN, CAL_ANCHOR_PC_MAX, CAL_ANCHOR_RAW_MIN, CAL_ANCHOR_RAW_MAX] at hva
  obtain ⟨⟨⟨⟨hlen, hhead⟩, hlast⟩, hrange⟩, hsegv⟩ := hva
  simp only [nondegAnchors, List.all_eq_true, decide_eq_true_eq] at hnd
  rcases anchors with _ | ⟨a, rest⟩
  · norm_num at hlen
  rcases rest with _ | ⟨b, t⟩
  · norm_num at hlen
  have hOK : SegsOK ((a :: b :: t).zip (b :: t)) := by
    refine ⟨?_, zip_tail_chain _⟩
    intro s hs
    have h1 := hsegv s hs
    have h2 := hnd s hs
    exact ⟨h1.1, h2⟩
  obtain ⟨L, hLdef⟩ : ∃ L, (a :: b :: t).getLastD (0, 0) = L := ⟨_, rfl⟩
  have hL : ((a :: b :: t).zip (b :: t)).getLast?.map Prod.snd = some L := by
    rw [← hLdef]
    exact zip_tail_getLast t a b
  have ha1 : a.1 = 0 := by simpa using hhead
  have hL1 : L.1 = 100 := by rw [← hLdef]; simpa using hlast
  obtain ⟨⟨⟨_, _⟩, ha2⟩, ha2'⟩ := hrange a (List.mem_cons_self _ _)
  have hLmem : L ∈ a :: b :: t := by rw [← hLdef]; exact getLastD_mem_cons (b :: t) a
  obtain ⟨⟨⟨_, _⟩, hL2⟩, hL2'⟩ := hrange L hLmem
  cases inv with
  | false =>
    have key := calKey a b t L p hOK hL ha1 hL1 ha2 ha2' hL2 hL2' hp0 hp1
    obtain ⟨R, hRdef⟩ : ∃ R, pyRound (if p ≤ a.1 then (a.2 : ℚ) else if L.1 ≤ p then (L.2 : ℚ)
        else pctScan p ((a :: b :: t).zip (b :: t)) (L.2 : ℚ)) = R := ⟨_, rfl⟩
    rw [hRdef] at key
    have hptr : pct_to_raw p (a :: b :: t) false = R := by
      simp only [pct_to_raw, CAL_ANCHOR_PC_MIN, CAL_ANCHOR_PC_MAX, CAL_ANCHOR_RAW_MIN,
        CAL_ANCHOR_RAW_MAX, List.headD_cons, List.tail_cons, Bool.false_eq_true, if_false]
      rw [show max 0 (min 100 p) = p from by omega, hLdef, hRdef]
      rw [if_neg (not_lt.mpr key.1.1), if_neg (not_lt.mpr key.1.2)]
    obtain ⟨k0, hk0⟩ : ∃ k0,
        pyRound (rawScan R ((a :: b :: t).zip (b :: t)) (L.1 : ℚ)) = k0 := ⟨_, rfl⟩
    rw [hk0] at key
    have hback : raw_to_pct (some R) (a :: b :: t) false
        = some (if k0 < 0 then 0 else if 100 < k0 then 100 else k0) := by
      simp only [raw_to_pct, CAL_ANCHOR_PC_MIN, CAL_ANCHOR_PC_MAX, CAL_ANCHOR_RAW_MIN,
        CAL_ANCHOR_RAW_MAX, List.tail_cons, Bool.false_eq_true, if_false]
      rw [hLdef, show max 0 (min 65535 R) = R from by omega, hk0]
    refine ⟨if k0 < 0 then 0 else if 100 < k0 then 100 else k0, ?_, ?_⟩
    · rw [hptr, hback]
    · have h2 := key.2
      split_ifs <;> omega
  | true =>
    have hp'0 : (0 : ℤ) ≤ 100 - p := by omega
    have hp'1 : (100 : ℤ) - p ≤ 100 := by omega
    have key := calKey a b t L (100 - p) hOK hL ha1 hL1 ha2 ha2' hL2 hL2' hp'0 hp'1
    obtain ⟨R, hRdef⟩ : ∃ R, pyRound (if 100 - p ≤ a.1 then (a.2 : ℚ)
        else if L.1 ≤ 100 - p then (L.2 : ℚ)
        else pctScan (100 - p) ((a :: b :: t).zip (b :: t)) (L.2 : ℚ)) = R := ⟨_, rfl⟩
    rw [hRdef] at key
    have hptr : pct_to_raw p (a :: b :: t) true = R := by
      simp only [pct_to_raw, CAL_ANCHOR_PC_MIN, CAL_ANCHOR_PC_MAX, CAL_ANCHOR_RAW_MIN,
        CAL_ANCHOR_RAW_MAX, List.headD_cons, List.tail_cons, if_true]
      rw [show max 0 (min 100 p) = p from by omega, hLdef, hRdef]
      rw [if_neg (not_lt.mpr key.1.1), if_neg (not_lt.mpr key.1.2)]
    obtain ⟨k0, hk0⟩ : ∃ k0,
        pyRound (rawScan R ((a :: b :: t).zip (b :: t)) (L.1 : ℚ)) = k0 := ⟨_, rfl⟩
    rw [hk0] at key
    have hback : raw_to_pct (some R) (a :: b :: t) true
        = some (if 100 - k0 < 0 then 0 else if 100 < 100 - k0 then 100 else 100 - k0) := by
      simp only [raw_to_pct, CAL_ANCHOR_PC_MIN, CAL_ANCHOR_PC_MAX, CAL_ANCHOR_RAW_MIN,
        CAL_ANCHOR_RAW_MAX, List.tail_cons, if_true]
      rw [hLdef, show max 0 (min 65535 R) = R from by omega, hk0]
    refine ⟨if 100 - k0 < 0 then 0 else if 100 < 100 - k0 then 100 else 100 - k0, ?_, ?_⟩
    · rw [hptr, hback]
    · have h2 := key.2
      split_ifs <;> omega

/-- Counterexample for **C3** as stated: the anchor table `[(0,0),(100,1)]`
passes `validate_anchors` and is non-degenerate in the natural sense (raw
strictly increasing, no flat segment), yet
`raw_to_pct (pct_to_raw 30) = 0`, an error of 30 percent — the round-trip
bound needs each segment's raw span to be at least its percent span. -/
theorem c3_round_trip_counterexample :
    validAnchors [(0, 0), (100, 1)] = true ∧
    (∀ s ∈ ([((0 : ℤ), (0 : ℤ)), (100, 1)] : List Anchor).zip
        ([((0 : ℤ), (0 : ℤ)), (100, 1)] : List Anchor).tail, s.1.2 < s.2.2) ∧
    pct_to_raw 30 [(0, 0), (100, 1)] false = 0 ∧
    raw_to_pct (some (pct_to_raw 30 [(0, 0), (100, 1)] false)) [(0, 0), (100, 1)] false
      = some 0 ∧
    ¬ (((0 : ℤ) - 30).natAbs ≤ 1) := by
  have hfwd : pct_to_raw 30 [(0, 0), (100, 1)] false = 0 := by
    norm_num [pct_to_raw, pctScan, pyRound, CAL_ANCHOR_PC_MIN, CAL_ANCHOR_PC_MAX,
      CAL_ANCHOR_RAW_MIN, CAL_ANCHOR_RAW_MAX]
  refine ⟨?_, ?_, hfwd, ?_, by norm_num⟩
  · norm_num [validAnchors, CAL_ANCHOR_PC_MIN, CAL_ANCHOR_PC_MAX,
      CAL_ANCHOR_RAW_MIN, CAL_ANCHOR_RAW_MAX]
  · intro s hs
    simp only [List.tail_cons, List.zip_cons_cons, List.zip_nil_right,
      List.mem_singleton] at hs
    rw [hs]
    norm_num
  · rw [hfwd]
    norm_num [raw_to_pct, rawScan, pyRound, CAL_ANCHOR_PC_MIN, CAL_ANCHOR_PC_MAX,
      CAL_ANCHOR_RAW_MIN, CAL_ANCHOR_RAW_MAX]

/-- Witness for `c3_round_trip_within_one`: the repository's custom test
curve `[(0,0),(30,12000),(60,40000),(100,65535)]` at `p = 23`. -/
theorem c3_round_trip_within_one_witness :
    ∃ k : ℤ, raw_to_pct (some (pct_to_raw 23
        [(0, 0), (30, 12000), (60, 40000), (100, 65535)] false))
      [(0, 0), (30, 12000), (60, 40000), (100, 65535)] false = some k ∧
      (k - 23).natAbs ≤ 1 :=
  c3_round_trip_within_one [(0, 0), (30, 12000), (60, 40000), (100, 65535)] false 23
    (by norm_num [validAnchors, CAL_ANCHOR_PC_MIN, CAL_ANCHOR_PC_MAX,
      CAL_ANCHOR_RAW_MIN, CAL_ANCHOR_RAW_MAX])
    (by norm_num [nondegAnchors]) (by norm_num) (by norm_num)

end CrestronHome
